import Mathlib

/-!
# Verification of the Skematix blueprint-to-3D pipeline

A shallow embedding in Lean 4 of the geometry-extraction pipeline
(`src/pipeline/stage2_wall_refinement.py` … `stage9_export.py` and
`orchestrator.py`), together with theorems settling the specification
claims about it.

Modelling conventions:
* images / binary masks are total boolean functions on pixel coordinates
  together with explicit height/width bounds (`Mask2D`);
* Python floats are modelled by `ℚ` (exact rational arithmetic; float
  rounding is irrelevant to every property proved here and is noted where
  a comparison against a float constant such as `0.95 * total` is
  rationalised);
* Python `None`-returning functions become `Option`-valued functions;
* calls into external libraries (`cv2`, `numpy`, `scipy`) are embedded by
  implementing the documented semantics of the called routine
  (morphology, connected components, little-endian packing), or — where a
  library value is irrational (`np.sqrt`) or is an unconstrained external
  input (the labelling returned by `cv2.connectedComponents` inside the
  room detector) — by an explicit parameter.
-/

namespace Skematix

/-! ## Binary masks (numpy uint8 arrays of 0/1 values) -/

/-- A binary image mask: `h × w` grid, `data y x = true` iff pixel `(x, y)`
is set.  Out-of-range queries are routed through bounds checks in every
operation below, mirroring numpy index/slice semantics. -/
structure Mask2D where
  h : Nat
  w : Nat
  data : Nat → Nat → Bool

namespace Mask2D

/-- Embeds `mask.sum()` on a 0/1 uint8 array: the number of set in-range pixels. -/
def count (m : Mask2D) : Nat :=
  ((List.range m.h).map (fun y =>
    ((List.range m.w).filter (fun x => m.data y x)).length)).sum

/-- Embeds `mask.size`: total number of pixels. -/
def size (m : Mask2D) : Nat := m.h * m.w

/-- Pixel read with numpy-style bounds guard (all reads performed by the
pipeline are in range; the guard only makes the function total). -/
def get (m : Mask2D) (y x : Int) : Bool :=
  if 0 ≤ y ∧ y < (m.h : Int) ∧ 0 ≤ x ∧ x < (m.w : Int) then
    m.data y.toNat x.toNat
  else false

/-- Embeds `wall_mask[ylo:yhi, xlo:xhi].sum() > 0`: is there a set pixel in the
(clamped, half-open) rectangular slice?  numpy slices clamp negative /
overlong ranges to the array, which `get`'s bounds guard reproduces. -/
def anyInRect (m : Mask2D) (ylo yhi xlo xhi : Int) : Bool :=
  decide (∃ i < (yhi - ylo).toNat, ∃ j < (xhi - xlo).toNat,
    m.get (ylo + i) (xlo + j) = true)

end Mask2D

/-! ## Generic worklist breadth-first search

The BFS loop shared (in shape) by `WallTopologyGraph._is_connected` in
`stage3_topology_extraction.py` and by the connected-component labelling
the pipeline obtains from `cv2.connectedComponents`:

```
visited = set(); queue = [start]
while queue:
    v = queue.pop(0)
    if v in visited: continue
    visited.add(v)
    for w in adjacency[v]:
        if w not in visited: queue.append(w)
```

The Python loop terminates because the visited set grows; the embedding
makes the same loop structurally recursive on an explicit fuel argument,
and the lemmas below show that the fuel bound chosen at each call site is
large enough for the loop to drain its queue. -/

variable {α : Type} [DecidableEq α]

/-- One-to-one translation of the worklist loop above. `visited` is kept as
a duplicate-free list in insertion order (Python: a `set`). -/
def bfsLoop (adj : α → List α) : Nat → List α → List α → List α
  | 0, visited, _ => visited
  | _ + 1, visited, [] => visited
  | fuel + 1, visited, v :: queue =>
    if v ∈ visited then
      bfsLoop adj fuel visited queue
    else
      bfsLoop adj fuel (visited ++ [v])
        (queue ++ (adj v).filter (fun w => decide (w ∉ visited ++ [v])))

/-! ## Stage 2: wall mask refinement (`stage2_wall_refinement.py`) -/

namespace Stage2

/-- Embeds `cv2.getStructuringElement(cv2.MORPH_ELLIPSE, (3, 3))`: the 3×3 cross,
as a list of `(dy, dx)` offsets of its set entries relative to the
anchor (centre). -/
def kernelEllipse3 : List (Int × Int) :=
  [(-1, 0), (0, -1), (0, 0), (0, 1), (1, 0)]

/-- Embeds `cv2.getStructuringElement(cv2.MORPH_ELLIPSE, (5, 5))`: rows
`00100 / 11111 / 11111 / 11111 / 00100`, as `(dy, dx)` offsets. -/
def kernelEllipse5 : List (Int × Int) :=
  [(-2, 0),
   (-1, -2), (-1, -1), (-1, 0), (-1, 1), (-1, 2),
   (0, -2), (0, -1), (0, 0), (0, 1), (0, 2),
   (1, -2), (1, -1), (1, 0), (1, 1), (1, 2),
   (2, 0)]

/-- Embeds `cv2.dilate(mask, kernel)`: a pixel is set iff some kernel offset hits a
set pixel (out-of-image reads act as 0, cv2's default border for
dilation). -/
def dilate (k : List (Int × Int)) (m : Mask2D) : Mask2D :=
  { m with data := fun y x =>
      k.any (fun d => m.get ((y : Int) + d.1) ((x : Int) + d.2)) }

/-- Embeds `cv2.erode(mask, kernel)`: a pixel is set iff every in-image kernel
offset hits a set pixel (out-of-image reads act as 1, cv2's default
border for erosion, so the border never erodes by itself). -/
def erode (k : List (Int × Int)) (m : Mask2D) : Mask2D :=
  { m with data := fun y x =>
      k.all (fun d =>
        let yy := (y : Int) + d.1
        let xx := (x : Int) + d.2
        if 0 ≤ yy ∧ yy < (m.h : Int) ∧ 0 ≤ xx ∧ xx < (m.w : Int) then
          m.get yy xx
        else true) }

/-- Embeds `cv2.morphologyEx(mask, cv2.MORPH_CLOSE, kernel)` = dilate then erode. -/
def morphClose (k : List (Int × Int)) (m : Mask2D) : Mask2D :=
  erode k (dilate k m)

/-- Embeds `cv2.morphologyEx(mask, cv2.MORPH_OPEN, kernel)` = erode then dilate. -/
def morphOpen (k : List (Int × Int)) (m : Mask2D) : Mask2D :=
  dilate k (erode k m)

/-- Embeds `WallMaskRefinement._remove_openings_preserve_continuity`: dilate the
opening mask with the 3×3 ellipse and zero those pixels in the wall
mask. -/
def removeOpenings (wall opening : Mask2D) : Mask2D :=
  let dilated := dilate kernelEllipse3 opening
  { wall with data := fun y x =>
      if dilated.data y x then false else wall.data y x }

/-- Embeds `WallMaskRefinement._morphological_cleanup`: closing with the 5×5
ellipse, then opening with the 3×3 ellipse. -/
def morphologicalCleanup (m : Mask2D) : Mask2D :=
  morphOpen kernelEllipse3 (morphClose kernelEllipse5 m)

/-- The 8-neighbourhood adjacency between set pixels of a mask
(`cv2.connectedComponents` uses 8-connectivity by default). -/
def pixelAdj (m : Mask2D) (p : Nat × Nat) : List (Nat × Nat) :=
  if m.get p.1 p.2 then
    ([(-1, -1), (-1, 0), (-1, 1), (0, -1), (0, 1), (1, -1), (1, 0), (1, 1)]
      : List (Int × Int)).filterMap (fun d =>
        let yy := (p.1 : Int) + d.1
        let xx := (p.2 : Int) + d.2
        if m.get yy xx then some (yy.toNat, xx.toNat) else none)
  else []

/-- Size of the 8-connected component of pixel `p`: the labelling computed
by `cv2.connectedComponents` assigns one label per maximal 8-connected
region of set pixels, so the size of the label-region of `p` is the size
of its reachable set. -/
def componentSize (m : Mask2D) (p : Nat × Nat) : Nat :=
  (bfsLoop (pixelAdj m) (m.h * m.w + 1) [] [p]).length

/-- Embeds `WallMaskRefinement._remove_small_components` (`min_size = 20`): a set
pixel survives iff its 8-connected component has at least `minSize`
pixels. -/
def removeSmallComponents (m : Mask2D) (minSize : Nat) : Mask2D :=
  { m with data := fun y x =>
      (decide (y < m.h) && decide (x < m.w) && m.data y x) &&
        decide (minSize ≤ componentSize m (y, x)) }

/-- Embeds `WallMaskRefinement.refine`: remove door gaps, remove window gaps,
morphological cleanup, strip components smaller than 20 pixels. -/
def refine (wall door window : Mask2D) : Mask2D :=
  removeSmallComponents
    (morphologicalCleanup (removeOpenings (removeOpenings wall door) window))
    20

/-- Embeds `WallMaskRefinement.validate` applied to the refined mask.  Returns
`(is_valid, message)`.  The float comparison
`wall_pixels > 0.95 * total_pixels` is rationalised to
`20 * wall_pixels > 19 * total_pixels`. -/
def validateRefined (refined : Mask2D) : Bool × String :=
  let wallPixels := refined.count
  let totalPixels := refined.size
  if wallPixels < 100 then
    (false, "Too few wall pixels remaining after refinement")
  else if 19 * totalPixels < 20 * wallPixels then
    (false, "Too many wall pixels (refinement likely failed)")
  else (true, "Refined wall mask valid")

/-- Embeds `stage2_wall_mask_refinement` on a present semantic output: refine,
validate, return the refined mask or `None`. -/
def stage2 (wall door window : Mask2D) : Option Mask2D :=
  let refined := refine wall door window
  if (validateRefined refined).1 then some refined else none

end Stage2

/-! ## Stage 3: wall topology graph (`stage3_topology_extraction.py`)

Only the graph data structure and its validation are embedded: the
skeletonisation feeding `TopologyExtractor` is a call into
`cv2.ximgproc.thinning`, so the graphs reaching `validate` are treated as
arbitrary well-formed graph values (the well-formedness facts used are
exactly the ones `add_vertex` / `add_edge` establish). -/

/-- Embeds `WallVertex`: id, pixel/metric position, junction/corner flags and an
edge-degree counter. -/
structure WallVertex where
  id : Nat
  position : ℚ × ℚ
  is_junction : Bool
  is_corner : Bool
  degree : Nat
deriving DecidableEq

/-- Embeds `WallEdge`: id, the two endpoint vertices, derived length, and the
polyline of intermediate points. -/
structure WallEdge where
  id : Nat
  vertex_a : WallVertex
  vertex_b : WallVertex
  length_px : ℚ
  points : List (ℚ × ℚ)
deriving DecidableEq

/-- Embeds `WallTopologyGraph`: vertex dictionary (insertion order), edge
dictionary (insertion order) and the adjacency map
`vertex_id -> set of neighbour ids`. -/
structure WallTopologyGraph where
  vertices : List WallVertex
  edges : List WallEdge
  adjacency : List (Nat × List Nat)
deriving DecidableEq

namespace WallTopologyGraph

/-- Association-list lookup for the adjacency dictionary; a vertex id with
no entry has no neighbours. -/
def lookupAdj : List (Nat × List Nat) → Nat → List Nat
  | [], _ => []
  | (k, ns) :: rest, v => if k = v then ns else lookupAdj rest v

/-- Embeds `self.adjacency[vid]` as a neighbour list. -/
def adjOf (g : WallTopologyGraph) (v : Nat) : List Nat :=
  lookupAdj g.adjacency v

/-- The vertex-id list (`self.vertices.keys()` in insertion order). -/
def ids (g : WallTopologyGraph) : List Nat := g.vertices.map (·.id)

/-- Fuel sufficient for the worklist in `_is_connected` to drain its queue
(shown in `bfsLoop_post` below): one initial enqueue plus one enqueue
per adjacency entry. -/
def bfsFuel (g : WallTopologyGraph) : Nat :=
  1 + (g.adjacency.map (fun p => 1 + p.2.length)).sum

/-- The visited set of the `_is_connected` worklist run from `start`. -/
def bfsFrom (g : WallTopologyGraph) (start : Nat) : List Nat :=
  bfsLoop g.adjOf (g.bfsFuel) [] [start]

/-- Embeds `WallTopologyGraph._is_connected`: BFS from the first vertex id must
visit as many vertices as the graph has. -/
def isConnected (g : WallTopologyGraph) : Bool :=
  match g.ids with
  | [] => false
  | v0 :: _ => (g.bfsFrom v0).length == g.vertices.length

/-- Termination measure of the `_is_connected` worklist: pending queue
entries plus, for every adjacency key not yet visited, the enqueues its
first visit can cause (its neighbour count) plus its own dequeue.  Every
loop iteration strictly decreases it, which is what makes `bfsFuel`
sufficient. -/
def bfsPotential (adjList : List (Nat × List Nat)) (visited queue : List Nat) :
    Nat :=
  queue.length +
    ∑ k ∈ (adjList.map Prod.fst).toFinset.filter (fun k => k ∉ visited),
      (1 + (lookupAdj adjList k).length)

/-- Embeds `WallTopologyGraph.validate`: ≥ 2 vertices, ≥ 1 edge, connected. -/
def validate (g : WallTopologyGraph) : Bool × String :=
  if g.vertices.length < 2 then
    (false, "Graph has fewer than 2 vertices")
  else if g.edges.length < 1 then
    (false, "Graph has no edges")
  else if !g.isConnected then
    (false, "Graph is not connected (broken wall topology)")
  else (true, "Graph structure valid")

end WallTopologyGraph

/-! ## Stage 4: room detection (`stage4_room_detection.py`) -/

namespace Stage4

/-- Embeds `Room`: id, member pixel set (`(x, y)` pairs), centroid, area,
perimeter pixel count and bounding box `(x_min, y_min, x_max, y_max)`. -/
structure Room where
  id : Nat
  pixels : Finset (Int × Int)
  centroid : ℚ × ℚ
  area_px : Nat
  perimeter_px : Nat
  bounds : Int × Int × Int × Int
deriving DecidableEq

/-- Embeds `RoomSet`: the detected rooms (dict insertion order), the id counter,
and the image shape. -/
structure RoomSet where
  height : Nat
  width : Nat
  rooms : List Room
  room_counter : Nat
deriving DecidableEq

/-- The 8 neighbour offsets used by the perimeter computation. -/
def nbr8 : List (Int × Int) :=
  [(-1, -1), (-1, 0), (-1, 1), (0, -1), (0, 1), (1, -1), (1, 0), (1, 1)]

/-- Embeds `RoomSet.add_room`: derive centroid, bounds and perimeter from the
pixel set and append the room under the next id.  (`detect` only calls
this with ≥ 20 pixels; `getD 0` merely totalises the empty case Python
would crash on.) -/
def addRoom (rs : RoomSet) (pixels : Finset (Int × Int)) : RoomSet :=
  let xs := pixels.image Prod.fst
  let ys := pixels.image Prod.snd
  let xmin := xs.min.getD 0
  let xmax := xs.max.getD 0
  let ymin := ys.min.getD 0
  let ymax := ys.max.getD 0
  let area := pixels.card
  let centroid : ℚ × ℚ :=
    ((pixels.sum (fun p => (p.1 : ℚ))) / area,
     (pixels.sum (fun p => (p.2 : ℚ))) / area)
  let perimeter :=
    (pixels.filter (fun p =>
      nbr8.any (fun d => decide ((p.1 + d.1, p.2 + d.2) ∉ pixels)))).card
  let room : Room :=
    { id := rs.room_counter
      pixels := pixels
      centroid := centroid
      area_px := area
      perimeter_px := perimeter
      bounds := (xmin, ymin, xmax, ymax) }
  { rs with rooms := rs.rooms ++ [room], room_counter := rs.room_counter + 1 }

/-- Embeds `RoomSet.check_overlap`: the nested loop over ordered pairs in
insertion order, succeeding iff no pair of rooms shares a pixel. -/
def checkOverlap : List Room → Bool
  | [] => true
  | r :: rest =>
    rest.all (fun r2 => decide (r.pixels ∩ r2.pixels = ∅)) && checkOverlap rest

/-- Embeds `RoomSet.validate`: ≥ 1 room, no overlap, min area ≥ 20, max/min area
ratio ≤ 100 (the float `max_area / min_area > 100` rationalised). -/
def validateRooms (rooms : List Room) : Bool :=
  if rooms.length < 1 then false
  else if !checkOverlap rooms then false
  else
    let areas := rooms.map (·.area_px)
    let minArea := areas.foldr min (areas.headD 0)
    let maxArea := areas.foldr max 0
    if minArea < 20 then false
    else if (100 : ℚ) < (maxArea : ℚ) / (minArea : ℚ) then false
    else true

/-- The per-ordered-pair body of
`RoomDetector.validate_room_separation`: `gap_exists` for rooms `r1`
(earlier in insertion order) and `r2`.  A wall pixel must show up in the
slice between the bounding extents along whichever axis separates the
boxes. -/
def gapExists (wall : Mask2D) (r1 r2 : Room) : Bool :=
  let (x1min, y1min, x1max, y1max) := r1.bounds
  let (x2min, y2min, _, _) := r2.bounds
  (decide (x1max < x2min) && wall.anyInRect y1min y1max x1max x2min) ||
  (decide (y1max < y2min) && wall.anyInRect y1max y2min x1min x1max)

/-- Embeds `RoomDetector.validate_room_separation`'s pair loop: every ordered pair
(in insertion order) must have a wall gap. -/
def separationOk (wall : Mask2D) : List Room → Bool
  | [] => true
  | r :: rest => rest.all (gapExists wall r) && separationOk wall rest

/-- Embeds `RoomDetector.detect`, parametrised by the connected components of the
inverted wall mask as returned by `cv2.connectedComponents` (an external
labelling; each element is the pixel set of one non-background label):
drop regions under 20 pixels or touching the image boundary, and add the
rest as rooms. -/
def detect (wall : Mask2D) (components : List (Finset (Int × Int))) : RoomSet :=
  let init : RoomSet :=
    { height := wall.h, width := wall.w, rooms := [], room_counter := 0 }
  components.foldl (fun rs pixels =>
    if pixels.card < 20 then rs
    else if decide (∃ p ∈ pixels,
        p.1 ≤ 1 ∨ (wall.w : Int) - 2 ≤ p.1 ∨
        p.2 ≤ 1 ∨ (wall.h : Int) - 2 ≤ p.2) then rs
    else addRoom rs pixels) init

/-- Embeds `stage4_room_detection` on a present mask: detect, then the fail-fast
validation cascade (room count, overlap, wall separation, structure). -/
def stage4 (wall : Mask2D) (components : List (Finset (Int × Int))) :
    Option RoomSet :=
  let rooms := detect wall components
  if rooms.rooms.length < 1 then none
  else if !checkOverlap rooms.rooms then none
  else if !separationOk wall rooms.rooms then none
  else if !validateRooms rooms.rooms then none
  else some rooms

/-- The claim-level notion used by C2, written from the specification's
words: some wall pixel lies between the two rooms' bounding extents along
the axis that separates them, in either orientation of the pair. -/
def separatedByWall (wall : Mask2D) (r1 r2 : Room) : Bool :=
  gapExists wall r1 r2 || gapExists wall r2 r1

end Stage4

/-! ## Stage 5: metric normalisation (`stage5_metric_normalization.py`) -/

namespace Stage5

/-- Embeds `REFERENCE_BUILDING_WIDTH = 12.0` metres. -/
def REFERENCE_BUILDING_WIDTH : ℚ := 12

/-- Embeds `WallTopologyGraph.add_vertex`, as used by
`MetricNormalizer._transform_wall_graph` to rebuild the graph: append a
fresh vertex under the counter id (the counter is the current vertex
count) and give it an empty adjacency entry. -/
def addVertex (g : WallTopologyGraph) (pos : ℚ × ℚ)
    (isJunction isCorner : Bool) : WallTopologyGraph × WallVertex :=
  let v : WallVertex :=
    { id := g.vertices.length
      position := pos
      is_junction := isJunction
      is_corner := isCorner
      degree := 0 }
  ({ g with
      vertices := g.vertices ++ [v]
      adjacency := g.adjacency ++ [(v.id, [])] }, v)

/-- Embeds `WallTopologyGraph.add_edge`: append the edge, extend both adjacency
entries, bump both vertex degrees. -/
def addEdge (g : WallTopologyGraph) (va vb : WallVertex) (len : ℚ)
    (points : List (ℚ × ℚ)) : WallTopologyGraph :=
  let e : WallEdge :=
    { id := g.edges.length
      vertex_a := va
      vertex_b := vb
      length_px := len
      points := points }
  { g with
      edges := g.edges ++ [e]
      adjacency := g.adjacency.map (fun p =>
        if p.1 = va.id then (p.1, p.2 ++ [vb.id])
        else if p.1 = vb.id then (p.1, p.2 ++ [va.id])
        else p)
      vertices := g.vertices.map (fun v =>
        if v.id = va.id ∨ v.id = vb.id then { v with degree := v.degree + 1 }
        else v) }

/-- Embeds `MetricNormalizer._estimate_building_width`: the larger of the vertex
bounding box's width and height (falling back to the image width when the
graph has no vertices). -/
def estimateBuildingWidth (imageWidth : ℚ) (g : WallTopologyGraph) : ℚ :=
  match g.vertices with
  | [] => imageWidth
  | v :: vs =>
    let xs := (v :: vs).map (fun u => u.position.1)
    let ys := (v :: vs).map (fun u => u.position.2)
    let width := xs.foldr max v.position.1 - xs.foldr min v.position.1
    let height := ys.foldr max v.position.2 - ys.foldr min v.position.2
    max width height

/-- Embeds `scale_factor = detected_width_px / REFERENCE_BUILDING_WIDTH` (line 120
of `stage5_metric_normalization.py`). -/
def scaleFactor (imageWidth : ℚ) (g : WallTopologyGraph) : ℚ :=
  estimateBuildingWidth imageWidth g / REFERENCE_BUILDING_WIDTH

/-- Embeds `MetricNormalizer._transform_wall_graph`: rebuild the graph with every
vertex position, edge length and edge point divided by the scale factor.
The `vertex_mapping` of the Python code is positional: old vertices are
visited in insertion order and `add_vertex` renumbers them 0, 1, …. -/
def transformWallGraph (g : WallTopologyGraph) (sf : ℚ) : WallTopologyGraph :=
  let withVertices :=
    g.vertices.foldl (fun acc v =>
      (addVertex acc (v.position.1 / sf, v.position.2 / sf)
        v.is_junction v.is_corner).1)
      { vertices := [], edges := [], adjacency := [] }
  g.edges.foldl (fun acc e =>
    let ia := (g.vertices.map (·.id)).indexOf e.vertex_a.id
    let ib := (g.vertices.map (·.id)).indexOf e.vertex_b.id
    match acc.vertices.get? ia, acc.vertices.get? ib with
    | some va, some vb =>
      addEdge acc va vb (e.length_px / sf)
        (e.points.map (fun p => (p.1 / sf, p.2 / sf)))
    | _, _ => acc) withVertices

end Stage5

/-! ## Stage 6: 3D cutaway construction (`stage6_3d_construction.py`) -/

namespace Stage6

/-- Embeds `WALL_THICKNESS = 0.22` m. -/
def WALL_THICKNESS : ℚ := 22 / 100

/-- Embeds `WALL_HEIGHT = 1.3` m. -/
def WALL_HEIGHT : ℚ := 13 / 10

/-- Embeds `FLOOR_SLAB_THICKNESS = 0.12` m. -/
def FLOOR_SLAB_THICKNESS : ℚ := 12 / 100

/-- Embeds `Vertex`: 3D position and normal. -/
structure Vertex3 where
  position : ℚ × ℚ × ℚ
  normal : ℚ × ℚ × ℚ := (0, 0, 1)
deriving DecidableEq

/-- Embeds `Face`: a triangle of vertex indices (the optional cached face normal
plays no role in any property proved here and is omitted). -/
structure Face3 where
  vertex_indices : Nat × Nat × Nat
deriving DecidableEq

/-- Embeds `np.round(coordinate, decimals=6)` as the integer numerator over
`10^6`: the deduplication key used by `Mesh.add_vertex`.  (numpy rounds
half to even; the two conventions agree except exactly at ties, which no
coordinate produced by the builder hits.) -/
def round6 (q : ℚ) : Int := ⌊q * 1000000 + 1 / 2⌋

/-- The rounded-position key of `Mesh.add_vertex`. -/
def posKey (p : ℚ × ℚ × ℚ) : Int × Int × Int :=
  (round6 p.1, round6 p.2.1, round6 p.2.2)

/-- Embeds `Mesh`: vertex list, face list, and the position-key → index map used
for deduplication. -/
structure Mesh where
  vertices : List Vertex3
  faces : List Face3
  vertex_hash_map : List ((Int × Int × Int) × Nat)
deriving DecidableEq

/-- The empty mesh (`Mesh(name="cutaway_model")`). -/
def emptyMesh : Mesh := { vertices := [], faces := [], vertex_hash_map := [] }

/-- Key lookup in the deduplication map. -/
def lookupKey : List ((Int × Int × Int) × Nat) → (Int × Int × Int) → Option Nat
  | [], _ => none
  | (k, i) :: rest, key => if k = key then some i else lookupKey rest key

/-- Embeds `Mesh.add_vertex`: return the index of an existing vertex with the same
rounded position, else append a fresh vertex and record its key. -/
def addVertex (m : Mesh) (p : ℚ × ℚ × ℚ) : Mesh × Nat :=
  let key := posKey p
  match lookupKey m.vertex_hash_map key with
  | some idx => (m, idx)
  | none =>
    let idx := m.vertices.length
    ({ m with
        vertices := m.vertices ++ [{ position := p }]
        vertex_hash_map := m.vertex_hash_map ++ [(key, idx)] }, idx)

/-- Embeds `Mesh.add_face`. -/
def addFace (m : Mesh) (i0 i1 i2 : Nat) : Mesh :=
  { m with faces := m.faces ++ [{ vertex_indices := (i0, i1, i2) }] }

/-- The list comprehension `[mesh.add_vertex(p) for p in ps]`: add each
position in order, collecting the returned indices. -/
def addVertices (m : Mesh) (ps : List (ℚ × ℚ × ℚ)) : Mesh × List Nat :=
  ps.foldl (fun acc p =>
    let (m2, idx) := addVertex acc.1 p
    (m2, acc.2 ++ [idx])) (m, [])

/-- The 12 box faces emitted by both `_build_floor_slab` and
`extrude_wall_edge` for bottom corners `b0..b3` and top corners `t0..t3`
(identical index patterns in both functions). -/
def addBoxFaces (m : Mesh) (b0 b1 b2 b3 t0 t1 t2 t3 : Nat) : Mesh :=
  let m := addFace m b0 b2 b1
  let m := addFace m b0 b3 b2
  let m := addFace m t0 t1 t2
  let m := addFace m t0 t2 t3
  let m := addFace m b0 b1 t0
  let m := addFace m b1 t1 t0
  let m := addFace m b1 b2 t1
  let m := addFace m b2 t2 t1
  let m := addFace m b2 b3 t2
  let m := addFace m b3 t3 t2
  let m := addFace m b3 b0 t3
  let m := addFace m b0 t0 t3
  m

/-- Embeds `WallExtrusion.extrude_wall_edge`.  `sqrtFn` supplies the value of
`np.linalg.norm(wall_vec)` given the squared length (the square root is
irrational in general; no property proved here depends on its values).
The degenerate guard `wall_len < 1e-6` is taken on the squared length,
equivalent for the nonnegative root. -/
def extrudeWallEdge (sqrtFn : ℚ → ℚ) (pStart pEnd : ℚ × ℚ)
    (thickness height : ℚ) (m : Mesh) : Mesh :=
  let wallVec := (pEnd.1 - pStart.1, pEnd.2 - pStart.2)
  let lenSq := wallVec.1 * wallVec.1 + wallVec.2 * wallVec.2
  if lenSq < 1 / 1000000000000 then m
  else
    let wallLen := sqrtFn lenSq
    let wallDir := (wallVec.1 / wallLen, wallVec.2 / wallLen)
    let perpDir := (-wallDir.2, wallDir.1)
    let halfThick := thickness / 2
    let po := (perpDir.1 * halfThick, perpDir.2 * halfThick)
    let rBottom := addVertices m
      [(pStart.1 - po.1, pStart.2 - po.2, 0),
       (pStart.1 + po.1, pStart.2 + po.2, 0),
       (pEnd.1 + po.1, pEnd.2 + po.2, 0),
       (pEnd.1 - po.1, pEnd.2 - po.2, 0)]
    let rTop := addVertices rBottom.1
      [(pStart.1 - po.1, pStart.2 - po.2, height),
       (pStart.1 + po.1, pStart.2 + po.2, height),
       (pEnd.1 + po.1, pEnd.2 + po.2, height),
       (pEnd.1 - po.1, pEnd.2 - po.2, height)]
    addBoxFaces rTop.1 (rBottom.2.getD 0 0) (rBottom.2.getD 1 0)
      (rBottom.2.getD 2 0) (rBottom.2.getD 3 0) (rTop.2.getD 0 0)
      (rTop.2.getD 1 0) (rTop.2.getD 2 0) (rTop.2.getD 3 0)

/-- Embeds `CutawayBuilder._build_floor_slab`: bounding box of the wall vertices
plus 0.5 m padding, extruded down by the slab thickness; a no-op when the
graph has no vertices. -/
def buildFloorSlab (g : WallTopologyGraph) (m : Mesh) : Mesh :=
  match g.vertices with
  | [] => m
  | v :: vs =>
    let xs := (v :: vs).map (fun u => u.position.1)
    let ys := (v :: vs).map (fun u => u.position.2)
    let xmin := xs.foldr min v.position.1 - 1 / 2
    let xmax := xs.foldr max v.position.1 + 1 / 2
    let ymin := ys.foldr min v.position.2 - 1 / 2
    let ymax := ys.foldr max v.position.2 + 1 / 2
    let zb := -FLOOR_SLAB_THICKNESS
    let rBottom := addVertices m
      [(xmin, ymin, zb), (xmax, ymin, zb), (xmax, ymax, zb), (xmin, ymax, zb)]
    let rTop := addVertices rBottom.1
      [(xmin, ymin, 0), (xmax, ymin, 0), (xmax, ymax, 0), (xmin, ymax, 0)]
    addBoxFaces rTop.1 (rBottom.2.getD 0 0) (rBottom.2.getD 1 0)
      (rBottom.2.getD 2 0) (rBottom.2.getD 3 0) (rTop.2.getD 0 0)
      (rTop.2.getD 1 0) (rTop.2.getD 2 0) (rTop.2.getD 3 0)

/-- Embeds `CutawayBuilder._build_walls`: `None` when the graph has no edges, else
extrude every edge's centreline. -/
def buildWalls (sqrtFn : ℚ → ℚ) (g : WallTopologyGraph) (m : Mesh) :
    Option Mesh :=
  match g.edges with
  | [] => none
  | _ =>
    some (g.edges.foldl (fun acc e =>
      extrudeWallEdge sqrtFn e.vertex_a.position e.vertex_b.position
        WALL_THICKNESS WALL_HEIGHT acc) m)

/-- Embeds `CutawayBuilder.build`: floor slab then walls; fails iff the wall pass
fails.  (Normal recalculation and the logged-only manifold check do not
change vertex or face counts and are not needed by any claim.) -/
def build (sqrtFn : ℚ → ℚ) (g : WallTopologyGraph) : Option Mesh :=
  let m := buildFloorSlab g emptyMesh
  buildWalls sqrtFn g m

end Stage6

/-! ## Stage 7: openings (`stage7_openings.py`) -/

namespace Stage7

open Stage6

/-- Vertex position lookup inside `cut_rectangular_hole` (Python indexes
`mesh.vertices[vi]`; every face produced by the builder is in range, and
the default merely totalises the function). -/
def posAt (m : Mesh) (i : Nat) : ℚ × ℚ × ℚ :=
  ((m.vertices.get? i).getD { position := (0, 0, 0) }).position

/-- The face-containment test of `ManifoldBoolean.cut_rectangular_hole`:
all three vertices inside the cut volume's closed X/Y/Z bounds
(`x_min <= v[0] <= x_max`, etc. — inclusive comparisons). -/
def faceInCut (m : Mesh) (cx cy width height zBottom zTop : ℚ)
    (f : Face3) : Bool :=
  let xmin := cx - width / 2
  let xmax := cx + width / 2
  let ymin := cy - height / 2
  let ymax := cy + height / 2
  let (i0, i1, i2) := f.vertex_indices
  [posAt m i0, posAt m i1, posAt m i2].all (fun v =>
    decide (xmin ≤ v.1 ∧ v.1 ≤ xmax) &&
    decide (ymin ≤ v.2.1 ∧ v.2.1 ≤ ymax) &&
    decide (zBottom ≤ v.2.2 ∧ v.2.2 ≤ zTop))

/-- Embeds `ManifoldBoolean.cut_rectangular_hole`: collect the faces whose three
vertices lie in the cut volume and pop exactly those (by descending
index, i.e. the survivors are the original list filtered); vertices are
untouched. -/
def cutRectangularHole (m : Mesh) (cx cy width height zBottom zTop : ℚ) :
    Mesh :=
  { m with faces :=
      m.faces.filter (fun f => !faceInCut m cx cy width height zBottom zTop f) }

/-- The containment predicate as claim C7 words it: all three vertices
strictly within the cut volume's X/Y/Z bounds (strict comparisons).
Written from the specification, for comparison with `faceInCut`. -/
def faceStrictlyInCutSpec (m : Mesh) (cx cy width height zBottom zTop : ℚ)
    (f : Face3) : Bool :=
  let xmin := cx - width / 2
  let xmax := cx + width / 2
  let ymin := cy - height / 2
  let ymax := cy + height / 2
  let (i0, i1, i2) := f.vertex_indices
  [posAt m i0, posAt m i1, posAt m i2].all (fun v =>
    decide (xmin < v.1 ∧ v.1 < xmax) &&
    decide (ymin < v.2.1 ∧ v.2.1 < ymax) &&
    decide (zBottom < v.2.2 ∧ v.2.2 < zTop))

end Stage7

/-! ## Stage 8: validation (`stage8_validation.py`) -/

namespace Stage8

/-- A float value as stage 8 observes it: finite, NaN, or ±infinity
(`np.isnan` / `np.isinf` are the only float-specific observations the
embedded check makes). -/
inductive MFloat where
  | fin (q : ℚ)
  | nan
  | posInf
  | negInf
deriving DecidableEq

/-- Embeds `np.isnan(v) or np.isinf(v)` componentwise on a normal vector. -/
def invalidNormal : MFloat × MFloat × MFloat → Bool
  | (MFloat.fin _, MFloat.fin _, MFloat.fin _) => false
  | _ => true

/-- Embeds `ValidationResult`: overall flag, recorded checks, warnings, errors. -/
structure ValidationResult where
  passed : Bool := true
  checks : List (String × Bool × String) := []
  warnings : List String := []
  errors : List String := []
deriving DecidableEq

/-- Embeds `ValidationResult.add_check`: record the triple; a failed check flips
`passed` and appends the message to the error list. -/
def addCheck (r : ValidationResult) (name : String) (ok : Bool)
    (message : String) : ValidationResult :=
  { r with
      checks := r.checks ++ [(name, ok, message)]
      passed := if ok then r.passed else false
      errors := if ok then r.errors else r.errors ++ [message] }

/-- Embeds `ValidationResult.add_warning`. -/
def addWarning (r : ValidationResult) (message : String) : ValidationResult :=
  { r with warnings := r.warnings ++ [message] }

/-- Embeds `MeshValidator._check_numerical_validity`: scan the vertex normals,
warn (once, at the first offender) about an invalid normal, then record
the "Numerical Validity" check as passed unconditionally. -/
def checkNumericalValidity (normals : List (MFloat × MFloat × MFloat))
    (r : ValidationResult) : ValidationResult :=
  let r1 :=
    match normals.findIdx? invalidNormal with
    | some i => addWarning r ("Vertex " ++ toString i ++ " has invalid normal")
    | none => r
  addCheck r1 "Numerical Validity" true "No critical numerical errors"

end Stage8

/-! ## Stage 9: GLB export (`stage9_export.py`) -/

namespace Stage9

/-- Embeds `GLTF_MAGIC = 0x46546C67` ("glTF"). -/
def GLTF_MAGIC : Nat := 0x46546C67

/-- Embeds `GLTF_VERSION = 2`. -/
def GLTF_VERSION : Nat := 2

/-- Chunk type tag `0x4E4F534A` ("JSON"). -/
def JSON_CHUNK_TYPE : Nat := 0x4E4F534A

/-- Chunk type tag `0x004E4942` ("BIN\x00"). -/
def BIN_CHUNK_TYPE : Nat := 0x004E4942

/-- Embeds `struct.pack('<I', n)`: four little-endian bytes. -/
def le32 (n : Nat) : List Nat :=
  [n % 256, n / 256 % 256, n / 65536 % 256, n / 16777216 % 256]

/-- Read four little-endian bytes back as a uint32. -/
def le32val : List Nat → Nat
  | [b0, b1, b2, b3] => b0 + 256 * b1 + 65536 * b2 + 16777216 * b3
  | _ => 0

/-- Padding length to the next 4-byte boundary: `(4 - (len % 4)) % 4`. -/
def pad4 (len : Nat) : Nat := (4 - len % 4) % 4

/-- Embeds `GLBExporter._write_glb_file`, as the byte string written to disk:
12-byte header (magic, version, total length), JSON chunk (length, type
tag, UTF-8 JSON space-padded to 4-byte alignment), binary chunk (length,
type tag, payload zero-padded to 4-byte alignment).  `jsonBytes` is the
UTF-8 encoding of `json.dumps(gltf_dict)` and `binData` the geometry
buffer, both taken as given byte lists. -/
def writeGlbBytes (jsonBytes binData : List Nat) : List Nat :=
  let jsonPadded := jsonBytes ++ List.replicate (pad4 jsonBytes.length) 0x20
  let jsonChunk := le32 jsonPadded.length ++ le32 JSON_CHUNK_TYPE ++ jsonPadded
  let binPadded := binData ++ List.replicate (pad4 binData.length) 0
  let binChunk := le32 binPadded.length ++ le32 BIN_CHUNK_TYPE ++ binPadded
  let fileSize := 12 + jsonChunk.length + binChunk.length
  le32 GLTF_MAGIC ++ le32 GLTF_VERSION ++ le32 fileSize ++ jsonChunk ++ binChunk

end Stage9

/-! ## Orchestrator (`orchestrator.py`) -/

namespace Orchestrator

open Stage4 Stage6 Stage8

/-- The stage functions `run_full_pipeline` dispatches to, with the
signatures the orchestrator uses.  `stage2` is the outcome of
`stage2_wall_mask_refinement` on the loaded image's semantic output;
the later fields are the imported stage entry points. -/
structure Stages where
  stage2 : Option Mask2D
  stage3 : Mask2D → Option WallTopologyGraph
  stage4 : Mask2D → Option WallTopologyGraph → Option RoomSet
  stage5 : WallTopologyGraph → RoomSet → Option (ℚ × WallTopologyGraph × RoomSet)
  stage6 : WallTopologyGraph → RoomSet → ℚ → Option Mesh
  stage7 : Mesh → WallTopologyGraph → ℚ → Option Mesh
  stage8 : Mesh → WallTopologyGraph → RoomSet → Nat → Bool
  stage9 : Mesh → Bool

/-- The orchestrator's per-run stage outputs (`BlueprintPipeline.__init__`
fields), each `None` until its stage has run. -/
structure PipeState where
  refined_wall_mask : Option Mask2D := none
  wall_graph : Option WallTopologyGraph := none
  room_set : Option RoomSet := none
  normalized_wall_graph : Option WallTopologyGraph := none
  normalized_room_set : Option RoomSet := none
  blender_model : Option Mesh := none
  model_with_openings : Option Mesh := none
  validation_passed : Bool := false
  exported : Bool := false

/-- Embeds `BlueprintPipeline.run_full_pipeline`: strict order 2→…→9, halting with
the stage's failure message on the first failing stage (stage 1 and
image loading precede `stage2` being `some`). -/
def runFullPipeline (s : Stages) : (Bool × String) × PipeState :=
  match s.stage2 with
  | none => ((false, "Stage 2 failed (Wall Mask Refinement)"), {})
  | some mask =>
    match s.stage3 mask with
    | none => ((false, "Stage 3 failed (Topology Extraction)"),
        { refined_wall_mask := some mask })
    | some g =>
      match s.stage4 mask (some g) with
      | none => ((false, "Stage 4 failed (Room Detection - FAIL FAST)"),
          { refined_wall_mask := some mask, wall_graph := some g })
      | some rs =>
        match s.stage5 g rs with
        | none => ((false, "Stage 5 failed (Metric Normalization)"),
            { refined_wall_mask := some mask, wall_graph := some g
              room_set := some rs })
        | some (sf, ng, nrs) =>
          match s.stage6 ng nrs sf with
          | none => ((false, "Stage 6 failed (3D Cutaway Construction)"),
              { refined_wall_mask := some mask, wall_graph := some g
                room_set := some rs, normalized_wall_graph := some ng
                normalized_room_set := some nrs })
          | some mesh =>
            match s.stage7 mesh ng sf with
            | none => ((false, "Stage 7 failed (Openings Generation)"),
                { refined_wall_mask := some mask, wall_graph := some g
                  room_set := some rs, normalized_wall_graph := some ng
                  normalized_room_set := some nrs, blender_model := some mesh })
            | some mesh2 =>
              let st : PipeState :=
                { refined_wall_mask := some mask, wall_graph := some g
                  room_set := some rs, normalized_wall_graph := some ng
                  normalized_room_set := some nrs, blender_model := some mesh
                  model_with_openings := some mesh2 }
              if s.stage8 mesh2 ng nrs g.edges.length then
                if s.stage9 mesh2 then
                  ((true, "Pipeline complete"),
                    { st with validation_passed := true, exported := true })
                else ((false, "Stage 9 failed (Export)"),
                  { st with validation_passed := true })
              else ((false, "Stage 8 failed (Validation)"), st)

end Orchestrator

/-! ## Concrete instances used as witnesses and counterexamples -/

namespace Demo

open Stage4 Stage6

/-- Axis-aligned pixel rectangle `[x0, x1] × [y0, y1]` as an `(x, y)` set. -/
def rect (x0 x1 y0 y1 : Int) : Finset (Int × Int) :=
  Finset.Icc x0 x1 ×ˢ Finset.Icc y0 y1

/-- A 9 × 16 wall mask whose only wall pixel sits at `(x, y) = (7, 4)`,
between the two demo rooms below. -/
def sepMask : Mask2D :=
  { h := 9, w := 16, data := fun y x => decide (y = 4) && decide (x = 7) }

/-- Two 5 × 5 candidate room regions separated by the wall column above. -/
def sepComponents : List (Finset (Int × Int)) :=
  [rect 2 6 2 6, rect 9 13 2 6]

/-- The first detected demo room (pixels `[2,6] × [2,6]`). -/
def roomA : Room :=
  { id := 0, pixels := rect 2 6 2 6, centroid := (4, 4), area_px := 25
    perimeter_px := 16, bounds := (2, 2, 6, 6) }

/-- The second detected demo room (pixels `[9,13] × [2,6]`). -/
def roomB : Room :=
  { id := 1, pixels := rect 9 13 2 6, centroid := (11, 4), area_px := 25
    perimeter_px := 16, bounds := (9, 2, 13, 6) }

/-- The room set stage 4 accepts on the demo input. -/
def sepRoomSet : RoomSet :=
  { height := 9, width := 16, rooms := [roomA, roomB], room_counter := 2 }

/-- An all-background 9 × 16 mask: no wall pixels at all. -/
def noWallMask : Mask2D := { h := 9, w := 16, data := fun _ _ => false }

/-- Two touching 5 × 5 candidate rooms (`x` ranges `[2,6]` and `[7,11]`)
with no wall pixel anywhere between them. -/
def touchingComponents : List (Finset (Int × Int)) :=
  [rect 2 6 2 6, rect 7 11 2 6]

/-- The two rooms `detect` builds from `touchingComponents`. -/
def roomT1 : Room :=
  { id := 0, pixels := rect 2 6 2 6, centroid := (4, 4), area_px := 25
    perimeter_px := 16, bounds := (2, 2, 6, 6) }

/-- Second touching room. -/
def roomT2 : Room :=
  { id := 1, pixels := rect 7 11 2 6, centroid := (9, 4), area_px := 25
    perimeter_px := 16, bounds := (7, 2, 11, 6) }

/-- Scenario D wall graph: vertex bounding box 1000 × 800 px with a vertex
at pixel `(500, 400)`. -/
def scenarioDGraph : WallTopologyGraph :=
  { vertices :=
      [{ id := 0, position := (0, 0), is_junction := false
         is_corner := false, degree := 0 },
       { id := 1, position := (1000, 800), is_junction := false
         is_corner := false, degree := 0 },
       { id := 2, position := (500, 400), is_junction := false
         is_corner := false, degree := 0 }]
    edges := []
    adjacency := [(0, []), (1, []), (2, [])] }

/-- First vertex of the two-vertex demo graph. -/
def gv0 : WallVertex :=
  { id := 0, position := (0, 0), is_junction := false, is_corner := false
    degree := 1 }

/-- Second vertex of the two-vertex demo graph. -/
def gv1 : WallVertex :=
  { id := 1, position := (4, 0), is_junction := false, is_corner := false
    degree := 1 }

/-- A minimal valid wall graph: two vertices joined by one 4 m edge. -/
def lineGraph : WallTopologyGraph :=
  { vertices := [gv0, gv1]
    edges := [{ id := 0, vertex_a := gv0, vertex_b := gv1, length_px := 4
                points := [(0, 0), (4, 0)] }]
    adjacency := [(0, [1]), (1, [0])] }

/-- Embeds `np.linalg.norm` oracle for `lineGraph`'s single horizontal edge
(squared length 16, root 4). -/
def lineSqrt : ℚ → ℚ := fun _ => 4

/-- A one-face mesh whose first vertex lies exactly on the boundary of the
demo cut volume below. -/
def boundaryMesh : Mesh :=
  { vertices :=
      [{ position := (1, 0, 1 / 2) },
       { position := (0, 0, 1 / 2) },
       { position := (0, 1 / 2, 1 / 2) }]
    faces := [{ vertex_indices := (0, 1, 2) }]
    vertex_hash_map := [] }

end Demo

/-! # Theorems

Helper lemmas first, then one theorem per claim (with a witness theorem
for each claim theorem that carries hypotheses, and counterexample
theorems where a claim fails on the code). -/

open Stage4 Stage6 Stage7 Stage8 Stage9

/-! ## Claim C9: cutting never touches the vertex data -/

/-- C9: for every mesh and every cut volume, `cut_rectangular_hole` leaves
the vertex list (positions, normals, index assignment) and the
deduplication map completely unchanged; only faces are removed. -/
theorem claim_C9_cut_preserves_vertices (m : Mesh)
    (cx cy width height zBottom zTop : ℚ) :
    (cutRectangularHole m cx cy width height zBottom zTop).vertices =
      m.vertices ∧
    (cutRectangularHole m cx cy width height zBottom zTop).vertex_hash_map =
      m.vertex_hash_map := by
  exact ⟨rfl, rfl⟩

/-! ## Claim C7: which faces does the cut remove? -/

/-- C7, as stated, is false on the code: the containment test of
`cut_rectangular_hole` is inclusive (`x_min <= v <= x_max`), not strict.
On `boundaryMesh` the cut volume `[-1,1] × [-1,1] × [0,1]` removes the
single face even though its first vertex sits exactly on the `x = 1`
boundary, so the face is not strictly within the bounds and the claimed
description (keep every face that is not strictly contained) predicts a
different face list. -/
theorem claim_C7_counterexample :
    (Stage7.cutRectangularHole Demo.boundaryMesh 0 0 2 2 0 1).faces ≠
      Demo.boundaryMesh.faces.filter
        (fun f => !Stage7.faceStrictlyInCutSpec Demo.boundaryMesh
          0 0 2 2 0 1 f) := by
  with_unfolding_all decide

/-- C7 amended: `cut_rectangular_hole` removes exactly those faces whose
three vertices all lie within the cut volume's closed (boundary
inclusive) X/Y/Z bounds, keeps every other face in order, and adds no
face. -/
theorem claim_C7_cut_removes_contained_faces (m : Mesh)
    (cx cy width height zBottom zTop : ℚ) :
    (cutRectangularHole m cx cy width height zBottom zTop).faces =
      m.faces.filter (fun f => !faceInCut m cx cy width height zBottom zTop f) ∧
    (cutRectangularHole m cx cy width height zBottom zTop).faces.Sublist
      m.faces := by
  exact ⟨rfl, List.filter_sublist m.faces⟩

/-! ## Claim C10: the numerical-validity check can never fail -/

/-- C10: the "Numerical Validity" check is always recorded with
`passed = true`; invalid (NaN/infinite) vertex normals at most append a
warning, and neither `ValidationResult.passed` nor the error list is ever
changed by this check — so it alone can never block export. -/
theorem claim_C10_numerical_validity_always_passes
    (normals : List (MFloat × MFloat × MFloat)) (r : ValidationResult) :
    (checkNumericalValidity normals r).checks =
      r.checks ++ [("Numerical Validity", true, "No critical numerical errors")] ∧
    (checkNumericalValidity normals r).passed = r.passed ∧
    (checkNumericalValidity normals r).errors = r.errors := by
  unfold checkNumericalValidity
  cases h : normals.findIdx? invalidNormal <;>
    simp [h, addCheck, addWarning]

/-! ## Claim C8: GLB container layout -/

/-- The packer `le32` always produces four bytes. -/
theorem le32_length (n : Nat) : (le32 n).length = 4 := rfl

/-- Reading back four little-endian bytes recovers a value below `2^32`. -/
theorem le32val_le32 (n : Nat) (h : n < 4294967296) :
    le32val (le32 n) = n := by
  simp only [le32, le32val]
  omega

/-- Padding completes a length to a multiple of four. -/
theorem pad4_aligns (n : Nat) : (n + pad4 n) % 4 = 0 := by
  simp only [pad4]; omega

/-- C8: every byte string written by `_write_glb_file` is the 12-byte
header — magic constant, version 2, total file length, each as
little-endian uint32 — followed by the space-padded JSON chunk and the
zero-padded binary chunk, both 4-byte aligned and length-prefixed; the
declared total length is 12 plus the two chunk sizes, which is the length
of the file (exactly recoverable from the header whenever it fits in a
uint32). -/
theorem claim_C8_glb_layout (jsonBytes binData : List Nat) :
    (writeGlbBytes jsonBytes binData =
      le32 GLTF_MAGIC ++ le32 GLTF_VERSION ++
      le32 (12 + (8 + (jsonBytes.length + pad4 jsonBytes.length)) +
        (8 + (binData.length + pad4 binData.length))) ++
      (le32 (jsonBytes.length + pad4 jsonBytes.length) ++ le32 JSON_CHUNK_TYPE ++
        (jsonBytes ++ List.replicate (pad4 jsonBytes.length) 0x20)) ++
      (le32 (binData.length + pad4 binData.length) ++ le32 BIN_CHUNK_TYPE ++
        (binData ++ List.replicate (pad4 binData.length) 0))) ∧
    GLTF_VERSION = 2 ∧
    (jsonBytes.length + pad4 jsonBytes.length) % 4 = 0 ∧
    (binData.length + pad4 binData.length) % 4 = 0 ∧
    (writeGlbBytes jsonBytes binData).length =
      12 + (8 + (jsonBytes.length + pad4 jsonBytes.length)) +
        (8 + (binData.length + pad4 binData.length)) ∧
    ((writeGlbBytes jsonBytes binData).length < 4294967296 →
      le32val (((writeGlbBytes jsonBytes binData).drop 8).take 4) =
        (writeGlbBytes jsonBytes binData).length) := by
  have hlay : writeGlbBytes jsonBytes binData =
      le32 GLTF_MAGIC ++ le32 GLTF_VERSION ++
      le32 (12 + (8 + (jsonBytes.length + pad4 jsonBytes.length)) +
        (8 + (binData.length + pad4 binData.length))) ++
      (le32 (jsonBytes.length + pad4 jsonBytes.length) ++ le32 JSON_CHUNK_TYPE ++
        (jsonBytes ++ List.replicate (pad4 jsonBytes.length) 0x20)) ++
      (le32 (binData.length + pad4 binData.length) ++ le32 BIN_CHUNK_TYPE ++
        (binData ++ List.replicate (pad4 binData.length) 0)) := by
    simp [writeGlbBytes, le32_length, List.length_append, pad4,
      List.length_replicate]
    congr 1
    omega
  have hlen : (writeGlbBytes jsonBytes binData).length =
      12 + (8 + (jsonBytes.length + pad4 jsonBytes.length)) +
        (8 + (binData.length + pad4 binData.length)) := by
    rw [hlay]
    simp [le32_length, List.length_append, List.length_replicate]
    omega
  refine ⟨hlay, rfl, pad4_aligns _, pad4_aligns _, hlen, fun hfit => ?_⟩
  have : ((writeGlbBytes jsonBytes binData).drop 8).take 4 =
      le32 (12 + (8 + (jsonBytes.length + pad4 jsonBytes.length)) +
        (8 + (binData.length + pad4 binData.length))) := by
    rw [hlay]
    simp [le32]
  rw [this, hlen, le32val_le32]
  rw [hlen] at hfit
  exact hfit

/-- Witness for C8 at a concrete one-byte JSON document and five-byte
payload. -/
theorem claim_C8_glb_layout_witness :
    (writeGlbBytes [65] [1, 2, 3, 4, 5]).length < 4294967296 ∧
    le32val (((writeGlbBytes [65] [1, 2, 3, 4, 5]).drop 8).take 4) =
      (writeGlbBytes [65] [1, 2, 3, 4, 5]).length :=
  ⟨by with_unfolding_all decide,
   (claim_C8_glb_layout [65] [1, 2, 3, 4, 5]).2.2.2.2.2
     (by with_unfolding_all decide)⟩

/-! ## Claim C3: scale factor and metric rewrite -/

/-- The seed is a lower bound of a `max`-fold. -/
theorem le_foldr_max (a : ℚ) (l : List ℚ) : a ≤ l.foldr max a := by
  induction l with
  | nil => exact le_refl a
  | cons x xs ih => rw [List.foldr_cons]; exact le_trans ih (le_max_right x _)

/-- Every member is a lower bound of a `max`-fold. -/
theorem mem_le_foldr_max (a : ℚ) (l : List ℚ) :
    ∀ x ∈ l, x ≤ l.foldr max a := by
  induction l with
  | nil => intro x hx; cases hx
  | cons y ys ih =>
    intro x hx
    rw [List.foldr_cons]
    rcases List.mem_cons.mp hx with h | h
    · rw [h]; exact le_max_left y _
    · exact le_trans (ih x h) (le_max_right y _)

/-- A `max`-fold returns its seed or one of the members. -/
theorem foldr_max_mem (a : ℚ) (l : List ℚ) :
    l.foldr max a = a ∨ l.foldr max a ∈ l := by
  induction l with
  | nil => exact Or.inl rfl
  | cons y ys ih =>
    rw [List.foldr_cons]
    rcases max_choice y (ys.foldr max a) with h | h
    · refine Or.inr ?_; rw [h]; exact List.mem_cons_self y ys
    · rw [h]
      rcases ih with h2 | h2
      · exact Or.inl h2
      · exact Or.inr (List.mem_cons_of_mem y h2)

/-- The seed is an upper bound of a `min`-fold. -/
theorem foldr_min_le (a : ℚ) (l : List ℚ) : l.foldr min a ≤ a := by
  induction l with
  | nil => exact le_refl a
  | cons x xs ih => rw [List.foldr_cons]; exact le_trans (min_le_right x _) ih

/-- Every member is an upper bound of a `min`-fold. -/
theorem foldr_min_le_mem (a : ℚ) (l : List ℚ) :
    ∀ x ∈ l, l.foldr min a ≤ x := by
  induction l with
  | nil => intro x hx; cases hx
  | cons y ys ih =>
    intro x hx
    rw [List.foldr_cons]
    rcases List.mem_cons.mp hx with h | h
    · rw [h]; exact min_le_left y _
    · exact le_trans (min_le_right y _) (ih x h)

/-- A `min`-fold returns its seed or one of the members. -/
theorem foldr_min_mem (a : ℚ) (l : List ℚ) :
    l.foldr min a = a ∨ l.foldr min a ∈ l := by
  induction l with
  | nil => exact Or.inl rfl
  | cons y ys ih =>
    rw [List.foldr_cons]
    rcases min_choice y (ys.foldr min a) with h | h
    · refine Or.inr ?_; rw [h]; exact List.mem_cons_self y ys
    · rw [h]
      rcases ih with h2 | h2
      · exact Or.inl h2
      · exact Or.inr (List.mem_cons_of_mem y h2)

/-- The vertex pass of `_transform_wall_graph` appends exactly the rescaled
vertices. -/
theorem transform_vertex_pass (sf : ℚ) (l : List WallVertex)
    (acc : WallTopologyGraph) :
    ((l.foldl (fun acc v =>
        (Stage5.addVertex acc (v.position.1 / sf, v.position.2 / sf)
          v.is_junction v.is_corner).1) acc).vertices.map (·.position)) =
      acc.vertices.map (·.position) ++
        l.map (fun v => (v.position.1 / sf, v.position.2 / sf)) := by
  induction l generalizing acc with
  | nil => simp
  | cons v vs ih =>
    rw [List.foldl_cons, ih]
    simp [Stage5.addVertex]

/-- Rebuilding edges with `add_edge` only bumps degrees: vertex positions survive. -/
theorem addEdge_positions (g : WallTopologyGraph) (va vb : WallVertex)
    (len : ℚ) (points : List (ℚ × ℚ)) :
    (Stage5.addEdge g va vb len points).vertices.map (·.position) =
      g.vertices.map (·.position) := by
  simp only [Stage5.addEdge, List.map_map]
  apply List.map_congr_left
  intro v _
  by_cases h : v.id = va.id ∨ v.id = vb.id <;> simp [h]

/-- The edge pass of `_transform_wall_graph` never changes vertex
positions. -/
theorem transform_edge_pass (g : WallTopologyGraph) (sf : ℚ)
    (l : List WallEdge) (acc : WallTopologyGraph) :
    ((l.foldl (fun acc e =>
        let ia := (g.vertices.map (·.id)).indexOf e.vertex_a.id
        let ib := (g.vertices.map (·.id)).indexOf e.vertex_b.id
        match acc.vertices.get? ia, acc.vertices.get? ib with
        | some va, some vb =>
          Stage5.addEdge acc va vb (e.length_px / sf)
            (e.points.map (fun p => (p.1 / sf, p.2 / sf)))
        | _, _ => acc) acc).vertices.map (·.position)) =
      acc.vertices.map (·.position) := by
  induction l generalizing acc with
  | nil => rfl
  | cons e es ih =>
    rw [List.foldl_cons]
    rcases h1 : acc.vertices.get? ((g.vertices.map (·.id)).indexOf e.vertex_a.id)
      with _ | va <;>
      rcases h2 : acc.vertices.get?
          ((g.vertices.map (·.id)).indexOf e.vertex_b.id) with _ | vb <;>
      simp only [h1, h2] <;>
      [exact ih _; exact ih _; exact ih _; rw [ih, addEdge_positions]]

set_option maxHeartbeats 2000000 in
set_option maxRecDepth 100000 in
/-- C3: for a wall graph with at least one vertex, the scale factor times
the 12 m reference width is the larger of the vertex bounding box's width
and height (it dominates every coordinate difference and is attained by
one), and the transformed graph carries exactly the original vertex list
with both coordinates divided by the scale factor.  In particular
(Scenario D) a 1000 × 800 px bounding box yields scale factor
1000/12 = 250/3 px/m and the vertex at pixel (500, 400) lands at
(6, 4.8) metres. -/
theorem claim_C3_scale_factor_and_rewrite (imageWidth : ℚ)
    (g : WallTopologyGraph) (hg : g.vertices ≠ []) :
    (∀ v ∈ g.vertices, ∀ w ∈ g.vertices,
      v.position.1 - w.position.1 ≤
        Stage5.scaleFactor imageWidth g * Stage5.REFERENCE_BUILDING_WIDTH ∧
      v.position.2 - w.position.2 ≤
        Stage5.scaleFactor imageWidth g * Stage5.REFERENCE_BUILDING_WIDTH) ∧
    (∃ v ∈ g.vertices, ∃ w ∈ g.vertices,
      Stage5.scaleFactor imageWidth g * Stage5.REFERENCE_BUILDING_WIDTH =
          v.position.1 - w.position.1 ∨
      Stage5.scaleFactor imageWidth g * Stage5.REFERENCE_BUILDING_WIDTH =
          v.position.2 - w.position.2) ∧
    (Stage5.transformWallGraph g (Stage5.scaleFactor imageWidth g)).vertices.map
        (·.position) =
      g.vertices.map (fun v =>
        (v.position.1 / Stage5.scaleFactor imageWidth g,
         v.position.2 / Stage5.scaleFactor imageWidth g)) ∧
    Stage5.scaleFactor 0 Demo.scenarioDGraph = 250 / 3 ∧
    (Stage5.transformWallGraph Demo.scenarioDGraph
        (Stage5.scaleFactor 0 Demo.scenarioDGraph)).vertices.map (·.position) =
      [(0, 0), (12, 48 / 5), (6, 24 / 5)] := by
  obtain ⟨v0, vs, hvs⟩ : ∃ v0 vs, g.vertices = v0 :: vs := by
    cases hg2 : g.vertices with
    | nil => exact absurd hg2 hg
    | cons a l => exact ⟨a, l, rfl⟩
  have hsf : Stage5.scaleFactor imageWidth g * Stage5.REFERENCE_BUILDING_WIDTH =
      Stage5.estimateBuildingWidth imageWidth g := by
    rw [Stage5.scaleFactor, div_mul_cancel₀]
    norm_num [Stage5.REFERENCE_BUILDING_WIDTH]
  have hest : Stage5.estimateBuildingWidth imageWidth g =
      max (((v0 :: vs).map (fun u => u.position.1)).foldr max v0.position.1 -
           ((v0 :: vs).map (fun u => u.position.1)).foldr min v0.position.1)
          (((v0 :: vs).map (fun u => u.position.2)).foldr max v0.position.2 -
           ((v0 :: vs).map (fun u => u.position.2)).foldr min v0.position.2) := by
    rw [Stage5.estimateBuildingWidth, hvs]
  refine ⟨?_, ?_, ?_, by with_unfolding_all decide, by with_unfolding_all decide⟩
  · intro v hv w hw
    rw [hsf, hest]
    have hvx : v.position.1 ∈ (v0 :: vs).map (fun u => u.position.1) :=
      List.mem_map_of_mem _ (hvs ▸ hv)
    have hwx : w.position.1 ∈ (v0 :: vs).map (fun u => u.position.1) :=
      List.mem_map_of_mem _ (hvs ▸ hw)
    have hvy : v.position.2 ∈ (v0 :: vs).map (fun u => u.position.2) :=
      List.mem_map_of_mem _ (hvs ▸ hv)
    have hwy : w.position.2 ∈ (v0 :: vs).map (fun u => u.position.2) :=
      List.mem_map_of_mem _ (hvs ▸ hw)
    have hx1 := mem_le_foldr_max v0.position.1 _ _ hvx
    have hx2 := foldr_min_le_mem v0.position.1 _ _ hwx
    have hy1 := mem_le_foldr_max v0.position.2 _ _ hvy
    have hy2 := foldr_min_le_mem v0.position.2 _ _ hwy
    have hl := le_max_left
      (((v0 :: vs).map (fun u => u.position.1)).foldr max v0.position.1 -
       ((v0 :: vs).map (fun u => u.position.1)).foldr min v0.position.1)
      (((v0 :: vs).map (fun u => u.position.2)).foldr max v0.position.2 -
       ((v0 :: vs).map (fun u => u.position.2)).foldr min v0.position.2)
    have hr := le_max_right
      (((v0 :: vs).map (fun u => u.position.1)).foldr max v0.position.1 -
       ((v0 :: vs).map (fun u => u.position.1)).foldr min v0.position.1)
      (((v0 :: vs).map (fun u => u.position.2)).foldr max v0.position.2 -
       ((v0 :: vs).map (fun u => u.position.2)).foldr min v0.position.2)
    exact ⟨by linarith, by linarith⟩
  · rw [hsf, hest]
    have hv0 : v0 ∈ g.vertices := hvs ▸ List.mem_cons_self v0 vs
    have memx : ∀ q ∈ (v0 :: vs).map (fun u => u.position.1),
        ∃ v ∈ g.vertices, v.position.1 = q := by
      intro q hq
      obtain ⟨u, hu, hq2⟩ := List.mem_map.mp hq
      exact ⟨u, hvs ▸ hu, hq2⟩
    have memy : ∀ q ∈ (v0 :: vs).map (fun u => u.position.2),
        ∃ v ∈ g.vertices, v.position.2 = q := by
      intro q hq
      obtain ⟨u, hu, hq2⟩ := List.mem_map.mp hq
      exact ⟨u, hvs ▸ hu, hq2⟩
    have hmaxx : ∃ v ∈ g.vertices, v.position.1 =
        ((v0 :: vs).map (fun u => u.position.1)).foldr max v0.position.1 := by
      rcases foldr_max_mem v0.position.1 ((v0 :: vs).map (fun u => u.position.1))
        with h | h
      · exact ⟨v0, hv0, h.symm⟩
      · obtain ⟨v, hv1, hv2⟩ := memx _ h; exact ⟨v, hv1, hv2⟩
    have hminx : ∃ v ∈ g.vertices, v.position.1 =
        ((v0 :: vs).map (fun u => u.position.1)).foldr min v0.position.1 := by
      rcases foldr_min_mem v0.position.1 ((v0 :: vs).map (fun u => u.position.1))
        with h | h
      · exact ⟨v0, hv0, h.symm⟩
      · obtain ⟨v, hv1, hv2⟩ := memx _ h; exact ⟨v, hv1, hv2⟩
    have hmaxy : ∃ v ∈ g.vertices, v.position.2 =
        ((v0 :: vs).map (fun u => u.position.2)).foldr max v0.position.2 := by
      rcases foldr_max_mem v0.position.2 ((v0 :: vs).map (fun u => u.position.2))
        with h | h
      · exact ⟨v0, hv0, h.symm⟩
      · obtain ⟨v, hv1, hv2⟩ := memy _ h; exact ⟨v, hv1, hv2⟩
    have hminy : ∃ v ∈ g.vertices, v.position.2 =
        ((v0 :: vs).map (fun u => u.position.2)).foldr min v0.position.2 := by
      rcases foldr_min_mem v0.position.2 ((v0 :: vs).map (fun u => u.position.2))
        with h | h
      · exact ⟨v0, hv0, h.symm⟩
      · obtain ⟨v, hv1, hv2⟩ := memy _ h; exact ⟨v, hv1, hv2⟩
    rcases max_choice
      (((v0 :: vs).map (fun u => u.position.1)).foldr max v0.position.1 -
       ((v0 :: vs).map (fun u => u.position.1)).foldr min v0.position.1)
      (((v0 :: vs).map (fun u => u.position.2)).foldr max v0.position.2 -
       ((v0 :: vs).map (fun u => u.position.2)).foldr min v0.position.2)
      with h | h
    · obtain ⟨v, hv1, hv2⟩ := hmaxx
      obtain ⟨w, hw1, hw2⟩ := hminx
      exact ⟨v, hv1, w, hw1, Or.inl (by rw [h, hv2, hw2])⟩
    · obtain ⟨v, hv1, hv2⟩ := hmaxy
      obtain ⟨w, hw1, hw2⟩ := hminy
      exact ⟨v, hv1, w, hw1, Or.inr (by rw [h, hv2, hw2])⟩
  · rw [Stage5.transformWallGraph, transform_edge_pass, transform_vertex_pass]
    rfl

set_option maxHeartbeats 2000000 in
set_option maxRecDepth 100000 in
/-- Witness for C3: the Scenario D graph instantiates the theorem. -/
theorem claim_C3_scale_factor_and_rewrite_witness :
    Stage5.scaleFactor 0 Demo.scenarioDGraph = 250 / 3 ∧
    (Stage5.transformWallGraph Demo.scenarioDGraph
        (Stage5.scaleFactor 0 Demo.scenarioDGraph)).vertices.map (·.position) =
      [(0, 0), (12, 48 / 5), (6, 24 / 5)] :=
  (claim_C3_scale_factor_and_rewrite 0 Demo.scenarioDGraph
    (by with_unfolding_all decide)).2.2.2

/-! ## Claim C6: mesh non-degeneracy -/

/-- The key map `round6` is strictly monotone across gaps of at least `10^-6`. -/
theorem round6_lt (a b : ℚ) (h : a + 1 / 1000000 ≤ b) :
    round6 a < round6 b := by
  unfold round6
  have h2 : a * 1000000 + 1 / 2 + 1 ≤ b * 1000000 + 1 / 2 := by linarith
  have h3 : (⌊a * 1000000 + 1 / 2⌋ : Int) + 1 = ⌊a * 1000000 + 1 / 2 + 1⌋ := by
    rw [Int.floor_add_one]
  have h4 : (⌊a * 1000000 + 1 / 2 + 1⌋ : Int) ≤ ⌊b * 1000000 + 1 / 2⌋ :=
    Int.floor_le_floor h2
  omega

/-- A key is absent from the deduplication map iff no entry carries it. -/
theorem lookupKey_eq_none (l : List ((Int × Int × Int) × Nat))
    (k : Int × Int × Int) :
    lookupKey l k = none ↔ ∀ e ∈ l, e.1 ≠ k := by
  induction l with
  | nil => simp [lookupKey]
  | cons e rest ih =>
    by_cases h : e.1 = k <;> simp [lookupKey, h, ih]

/-- Key lookup distributes over map concatenation. -/
theorem lookupKey_append (l1 l2 : List ((Int × Int × Int) × Nat))
    (k : Int × Int × Int) :
    lookupKey (l1 ++ l2) k =
      (lookupKey l1 k).elim (lookupKey l2 k) some := by
  induction l1 with
  | nil => simp [lookupKey]
  | cons e rest ih =>
    by_cases h : e.1 = k <;> simp [lookupKey, h, ih]

/-- The mesh component of `addVertices` is a plain fold of `add_vertex`. -/
theorem addVertices_fst (ps : List (ℚ × ℚ × ℚ)) (m : Mesh) :
    (addVertices m ps).1 = ps.foldl (fun mm p => (addVertex mm p).1) m := by
  suffices h : ∀ (acc : List Nat) (m : Mesh),
      (ps.foldl (fun acc p =>
        let r := addVertex acc.1 p
        (r.1, acc.2 ++ [r.2])) (m, acc)).1 =
      ps.foldl (fun mm p => (addVertex mm p).1) m by
    exact h [] m
  induction ps with
  | nil => intro acc m; rfl
  | cons p rest ih => intro acc m; exact ih _ _

/-- Adding a fresh position appends one vertex and one map entry. -/
theorem addVertex_fresh (m : Mesh) (p : ℚ × ℚ × ℚ)
    (h : lookupKey m.vertex_hash_map (posKey p) = none) :
    (addVertex m p).1.vertices = m.vertices ++ [{ position := p }] ∧
    (addVertex m p).1.vertex_hash_map =
      m.vertex_hash_map ++ [(posKey p, m.vertices.length)] := by
  simp [addVertex, h]

/-- Adding with `add_vertex` never shrinks the mesh. -/
theorem addVertex_mono (m : Mesh) (p : ℚ × ℚ × ℚ) :
    m.vertices.length ≤ (addVertex m p).1.vertices.length ∧
    (addVertex m p).1.faces = m.faces := by
  unfold addVertex
  cases h : lookupKey m.vertex_hash_map (posKey p) <;> simp [h]

/-- A fold of `add_vertex` never shrinks the mesh and never adds faces. -/
theorem addVertexFold_mono (ps : List (ℚ × ℚ × ℚ)) (m : Mesh) :
    m.vertices.length ≤
      (ps.foldl (fun mm p => (addVertex mm p).1) m).vertices.length ∧
    (ps.foldl (fun mm p => (addVertex mm p).1) m).faces = m.faces := by
  induction ps generalizing m with
  | nil => exact ⟨le_refl _, rfl⟩
  | cons p rest ih =>
    rw [List.foldl_cons]
    refine ⟨le_trans (addVertex_mono m p).1 (ih _).1, ?_⟩
    rw [(ih _).2, (addVertex_mono m p).2]

/-- Adding a batch of positions with pairwise-distinct keys, none already
present, appends exactly one vertex per position (and records exactly
those keys). -/
theorem addVertexFold_fresh (ps : List (ℚ × ℚ × ℚ)) (m : Mesh)
    (habs : ∀ p ∈ ps, lookupKey m.vertex_hash_map (posKey p) = none)
    (hnd : (ps.map posKey).Nodup) :
    (ps.foldl (fun mm p => (addVertex mm p).1) m).vertices.length =
      m.vertices.length + ps.length ∧
    (ps.foldl (fun mm p => (addVertex mm p).1) m).vertex_hash_map.map (·.1) =
      m.vertex_hash_map.map (·.1) ++ ps.map posKey := by
  induction ps generalizing m with
  | nil => simp
  | cons p rest ih =>
    rw [List.foldl_cons]
    have h0 := habs p (List.mem_cons_self p rest)
    obtain ⟨hv, hm⟩ := addVertex_fresh m p h0
    have habs2 : ∀ q ∈ rest,
        lookupKey (addVertex m p).1.vertex_hash_map (posKey q) = none := by
      intro q hq
      rw [hm, lookupKey_append, habs q (List.mem_cons_of_mem p hq)]
      have hne : posKey p ≠ posKey q := by
        have := (List.nodup_cons.mp hnd).1
        intro hcontra
        exact this (hcontra ▸ List.mem_map_of_mem posKey hq)
      simp [lookupKey, hne]
    have hnd2 : (rest.map posKey).Nodup := (List.nodup_cons.mp hnd).2
    obtain ⟨ih1, ih2⟩ := ih _ habs2 hnd2
    constructor
    · rw [ih1, hv]
      simp
      omega
    · rw [ih2, hm]
      simp

/-- The face helper `addBoxFaces` appends exactly twelve faces and keeps the vertices. -/
theorem addBoxFaces_counts (m : Mesh) (b0 b1 b2 b3 t0 t1 t2 t3 : Nat) :
    (addBoxFaces m b0 b1 b2 b3 t0 t1 t2 t3).faces.length =
      m.faces.length + 12 ∧
    (addBoxFaces m b0 b1 b2 b3 t0 t1 t2 t3).vertices = m.vertices := by
  simp [addBoxFaces, addFace]

/-- On an empty mesh, the floor slab of a graph with at least one vertex
consists of exactly 8 vertices and 12 faces. -/
theorem buildFloorSlab_counts (g : WallTopologyGraph) (hv : g.vertices ≠ []) :
    (buildFloorSlab g emptyMesh).vertices.length = 8 ∧
    (buildFloorSlab g emptyMesh).faces.length = 12 := by
  obtain ⟨v0, vs, hvs⟩ : ∃ v0 vs, g.vertices = v0 :: vs := by
    cases hg2 : g.vertices with
    | nil => exact absurd hg2 hv
    | cons a l => exact ⟨a, l, rfl⟩
  rw [buildFloorSlab, hvs]
  set xs := (v0 :: vs).map (fun u => u.position.1) with hxs
  set ys := (v0 :: vs).map (fun u => u.position.2) with hys
  set xmin := xs.foldr min v0.position.1 - 1 / 2 with hxmin
  set xmax := xs.foldr max v0.position.1 + 1 / 2 with hxmax
  set ymin := ys.foldr min v0.position.2 - 1 / 2 with hymin
  set ymax := ys.foldr max v0.position.2 + 1 / 2 with hymax
  have hxlt : round6 xmin < round6 xmax := by
    apply round6_lt
    have h1 := foldr_min_le v0.position.1 xs
    have h2 := le_foldr_max v0.position.1 xs
    rw [hxmin, hxmax]
    linarith
  have hylt : round6 ymin < round6 ymax := by
    apply round6_lt
    have h1 := foldr_min_le v0.position.2 ys
    have h2 := le_foldr_max v0.position.2 ys
    rw [hymin, hymax]
    linarith
  have hzlt : round6 (-FLOOR_SLAB_THICKNESS) < round6 (0 : ℚ) := by
    apply round6_lt
    rw [FLOOR_SLAB_THICKNESS]
    norm_num
  set zb := -FLOOR_SLAB_THICKNESS with hzb
  set bl := [((xmin : ℚ), (ymin : ℚ), (zb : ℚ)), (xmax, ymin, zb),
    (xmax, ymax, zb), (xmin, ymax, zb)] with hbl
  set tl := [((xmin : ℚ), (ymin : ℚ), (0 : ℚ)), (xmax, ymin, 0),
    (xmax, ymax, 0), (xmin, ymax, 0)] with htl
  have hndB : (bl.map posKey).Nodup := by
    rw [hbl]
    show List.Nodup [(round6 xmin, round6 ymin, round6 zb),
      (round6 xmax, round6 ymin, round6 zb),
      (round6 xmax, round6 ymax, round6 zb),
      (round6 xmin, round6 ymax, round6 zb)]
    simp only [List.nodup_cons, List.mem_cons, List.mem_singleton,
      List.not_mem_nil, or_false, Prod.mk.injEq, not_or, List.nodup_nil,
      and_true, true_and, not_false_eq_true]
    omega
  have hndT : (tl.map posKey).Nodup := by
    rw [htl]
    show List.Nodup [(round6 xmin, round6 ymin, round6 0),
      (round6 xmax, round6 ymin, round6 0),
      (round6 xmax, round6 ymax, round6 0),
      (round6 xmin, round6 ymax, round6 0)]
    simp only [List.nodup_cons, List.mem_cons, List.mem_singleton,
      List.not_mem_nil, or_false, Prod.mk.injEq, not_or, List.nodup_nil,
      and_true, true_and, not_false_eq_true]
    omega
  have hfresh1 : ∀ p ∈ bl, lookupKey emptyMesh.vertex_hash_map (posKey p) =
      none := by
    intro p _
    rfl
  obtain ⟨hlen1, hmap1⟩ := addVertexFold_fresh bl emptyMesh hfresh1 hndB
  have hfresh2 : ∀ p ∈ tl,
      lookupKey (bl.foldl (fun mm q => (addVertex mm q).1)
        emptyMesh).vertex_hash_map (posKey p) = none := by
    intro p hp
    rw [lookupKey_eq_none]
    intro e he hcontra
    have hk : e.1 ∈ (bl.foldl (fun mm q => (addVertex mm q).1)
        emptyMesh).vertex_hash_map.map (·.1) := List.mem_map_of_mem _ he
    rw [hmap1] at hk
    have hpk : posKey p ∈ tl.map posKey := List.mem_map_of_mem posKey hp
    rw [hcontra] at hk
    rw [hbl] at hk
    rw [htl] at hpk
    have hk2 : posKey p ∈ [(round6 xmin, round6 ymin, round6 zb),
        (round6 xmax, round6 ymin, round6 zb),
        (round6 xmax, round6 ymax, round6 zb),
        (round6 xmin, round6 ymax, round6 zb)] := by
      simpa [emptyMesh, posKey] using hk
    have hpk2 : posKey p ∈ [(round6 xmin, round6 ymin, round6 0),
        (round6 xmax, round6 ymin, round6 0),
        (round6 xmax, round6 ymax, round6 0),
        (round6 xmin, round6 ymax, round6 0)] := hpk
    simp only [List.mem_cons, List.not_mem_nil, or_false] at hk2 hpk2
    rcases hk2 with h | h | h | h <;> rw [h] at hpk2 <;>
      simp only [Prod.mk.injEq] at hpk2 <;> omega
  obtain ⟨hlen2, _⟩ := addVertexFold_fresh tl _ hfresh2 hndT
  constructor
  · rw [(addBoxFaces_counts _ _ _ _ _ _ _ _ _).2]
    simp only [addVertices_fst]
    rw [hlen2, hlen1]
    rfl
  · rw [(addBoxFaces_counts _ _ _ _ _ _ _ _ _).1]
    simp only [addVertices_fst]
    rw [(addVertexFold_mono _ _).2, (addVertexFold_mono _ _).2]
    rfl

/-- One wall extrusion never shrinks the mesh. -/
theorem extrudeWallEdge_mono (sqrtFn : ℚ → ℚ) (pStart pEnd : ℚ × ℚ)
    (thickness height : ℚ) (m : Mesh) :
    m.vertices.length ≤
      (extrudeWallEdge sqrtFn pStart pEnd thickness height m).vertices.length ∧
    m.faces.length ≤
      (extrudeWallEdge sqrtFn pStart pEnd thickness height m).faces.length := by
  rw [extrudeWallEdge]
  split
  · exact ⟨le_refl _, le_refl _⟩
  · simp only [addVertices_fst]
    constructor
    · rw [(addBoxFaces_counts _ _ _ _ _ _ _ _ _).2]
      exact le_trans (addVertexFold_mono _ _).1
        (le_trans (addVertexFold_mono _ _).1 (by rfl))
    · rw [(addBoxFaces_counts _ _ _ _ _ _ _ _ _).1,
        (addVertexFold_mono _ _).2, (addVertexFold_mono _ _).2]
      omega

/-- The wall pass never shrinks the mesh. -/
theorem wallFold_mono (sqrtFn : ℚ → ℚ) (es : List WallEdge) (m : Mesh) :
    m.vertices.length ≤
      (es.foldl (fun acc e =>
        extrudeWallEdge sqrtFn e.vertex_a.position e.vertex_b.position
          WALL_THICKNESS WALL_HEIGHT acc) m).vertices.length ∧
    m.faces.length ≤
      (es.foldl (fun acc e =>
        extrudeWallEdge sqrtFn e.vertex_a.position e.vertex_b.position
          WALL_THICKNESS WALL_HEIGHT acc) m).faces.length := by
  induction es generalizing m with
  | nil => exact ⟨le_refl _, le_refl _⟩
  | cons e rest ih =>
    rw [List.foldl_cons]
    exact ⟨le_trans (extrudeWallEdge_mono _ _ _ _ _ _).1 (ih _).1,
      le_trans (extrudeWallEdge_mono _ _ _ _ _ _).2 (ih _).2⟩

/-- C6: `CutawayBuilder.build` on a normalized wall graph (which always
carries its edge endpoints among its vertices, hence has a vertex when it
has an edge) fails exactly on the zero-edge graph, and any mesh it
returns has at least the floor slab's 8 vertices and 12 triangles. -/
theorem claim_C6_mesh_nondegeneracy (sqrtFn : ℚ → ℚ) (g : WallTopologyGraph)
    (hv : g.vertices ≠ []) :
    (g.edges = [] → build sqrtFn g = none) ∧
    (g.edges ≠ [] → (build sqrtFn g).isSome = true) ∧
    (∀ m, build sqrtFn g = some m →
      8 ≤ m.vertices.length ∧ 12 ≤ m.faces.length) := by
  refine ⟨?_, ?_, ?_⟩
  · intro he
    rw [build, buildWalls, he]
  · intro he
    rw [build, buildWalls]
    cases hE : g.edges with
    | nil => exact absurd hE he
    | cons e es => rfl
  · intro m hm
    rw [build, buildWalls] at hm
    cases hE : g.edges with
    | nil => rw [hE] at hm; cases hm
    | cons e es =>
      rw [hE] at hm
      simp only [Option.some.injEq] at hm
      obtain ⟨hf1, hf2⟩ := buildFloorSlab_counts g hv
      obtain ⟨hw1, hw2⟩ :=
        wallFold_mono sqrtFn (e :: es) (buildFloorSlab g emptyMesh)
      rw [hm] at hw1 hw2
      omega

/-- Witness for C6: the one-edge demo graph gives a mesh with 16 vertices
and 24 faces, satisfying both bounds. -/
theorem claim_C6_mesh_nondegeneracy_witness :
    (build Demo.lineSqrt Demo.lineGraph).isSome = true ∧
    8 ≤ ((build Demo.lineSqrt Demo.lineGraph).getD emptyMesh).vertices.length ∧
    12 ≤ ((build Demo.lineSqrt Demo.lineGraph).getD emptyMesh).faces.length := by
  have h := claim_C6_mesh_nondegeneracy Demo.lineSqrt Demo.lineGraph
    (by with_unfolding_all decide)
  have hs : (build Demo.lineSqrt Demo.lineGraph).isSome = true :=
    h.2.1 (by with_unfolding_all decide)
  obtain ⟨m, hm⟩ := Option.isSome_iff_exists.mp hs
  obtain ⟨h1, h2⟩ := h.2.2 m hm
  rw [hm]
  exact ⟨rfl, h1, h2⟩

/-! ## Claims C1 and C2: room overlap and wall separation -/

/-- A passing overlap check means the pair relation holds along the nested
loop's ordered pairs. -/
theorem checkOverlap_pairwise (l : List Room) (h : checkOverlap l = true) :
    l.Pairwise (fun a b => a.pixels ∩ b.pixels = ∅) := by
  induction l with
  | nil => exact List.Pairwise.nil
  | cons r rest ih =>
    rw [checkOverlap, Bool.and_eq_true] at h
    refine List.Pairwise.cons ?_ (ih h.2)
    intro r2 hr2
    have := List.all_eq_true.mp h.1 r2 hr2
    exact of_decide_eq_true this

/-- A passing separation check means every ordered pair had a wall gap. -/
theorem separationOk_pairwise (wall : Mask2D) (l : List Room)
    (h : separationOk wall l = true) :
    l.Pairwise (fun a b => gapExists wall a b = true) := by
  induction l with
  | nil => exact List.Pairwise.nil
  | cons r rest ih =>
    rw [separationOk, Bool.and_eq_true] at h
    exact List.Pairwise.cons (fun r2 hr2 => List.all_eq_true.mp h.1 r2 hr2)
      (ih h.2)

/-- Unfolding `stage4_room_detection`: the explicit validation cascade over the
detected room set. -/
theorem stage4_eq (wall : Mask2D) (comps : List (Finset (Int × Int))) :
    stage4 wall comps =
      if (detect wall comps).rooms.length < 1 then none
      else if !checkOverlap (detect wall comps).rooms then none
      else if !separationOk wall (detect wall comps).rooms then none
      else if !validateRooms (detect wall comps).rooms then none
      else some (detect wall comps) := rfl

/-- A successful stage 4 returns the detected room set, with the overlap
and separation checks known to have passed. -/
theorem stage4_some_elim (wall : Mask2D) (comps : List (Finset (Int × Int)))
    (rs : RoomSet) (h : stage4 wall comps = some rs) :
    rs = detect wall comps ∧
    checkOverlap (detect wall comps).rooms = true ∧
    separationOk wall (detect wall comps).rooms = true := by
  rw [stage4_eq] at h
  split at h
  · exact Option.noConfusion h
  split at h
  next h2 => exact Option.noConfusion h
  next h2 =>
    split at h
    next h3 => exact Option.noConfusion h
    next h3 =>
      split at h
      · exact Option.noConfusion h
      · refine ⟨(Option.some.injEq _ _).mp h.symm ▸ rfl, ?_, ?_⟩
        · simpa using h2
        · simpa using h3

/-- C1: whenever stage 4 succeeds, the rooms of the returned `RoomSet` are
pairwise pixel-disjoint; and whenever two distinct detected rooms share a
pixel, stage 4 returns `None` instead. -/
theorem claim_C1_room_nonoverlap (wall : Mask2D)
    (comps : List (Finset (Int × Int))) :
    (∀ rs, stage4 wall comps = some rs →
      ∀ r1 ∈ rs.rooms, ∀ r2 ∈ rs.rooms, r1 ≠ r2 →
        r1.pixels ∩ r2.pixels = ∅) ∧
    (∀ r1 r2, r1 ∈ (detect wall comps).rooms →
      r2 ∈ (detect wall comps).rooms → r1 ≠ r2 →
      (r1.pixels ∩ r2.pixels).Nonempty → stage4 wall comps = none) := by
  have key : ∀ rs, stage4 wall comps = some rs →
      ∀ r1 ∈ rs.rooms, ∀ r2 ∈ rs.rooms, r1 ≠ r2 →
        r1.pixels ∩ r2.pixels = ∅ := by
    intro rs h r1 hr1 r2 hr2 hne
    obtain ⟨hrs, hov, _⟩ := stage4_some_elim wall comps rs h
    subst hrs
    have hpw := checkOverlap_pairwise _ hov
    have hsym : Symmetric (fun a b : Room => a.pixels ∩ b.pixels = ∅) := by
      intro a b hab
      rw [Finset.inter_comm]
      exact hab
    exact hpw.forall hsym hr1 hr2 hne
  refine ⟨key, ?_⟩
  intro r1 r2 hr1 hr2 hne hshare
  cases h4 : stage4 wall comps with
  | none => rfl
  | some rs =>
    obtain ⟨hrs, _, _⟩ := stage4_some_elim wall comps rs h4
    have := key rs h4 r1 (hrs ▸ hr1) r2 (hrs ▸ hr2) hne
    rw [this] at hshare
    exact absurd hshare Finset.not_nonempty_empty

set_option maxRecDepth 100000 in
/-- Witness for C1: on the demo mask, stage 4 succeeds and the two demo
rooms are pixel-disjoint. -/
theorem claim_C1_room_nonoverlap_witness :
    Demo.roomA.pixels ∩ Demo.roomB.pixels = ∅ :=
  (claim_C1_room_nonoverlap Demo.sepMask Demo.sepComponents).1
    Demo.sepRoomSet (by with_unfolding_all decide)
    Demo.roomA (by with_unfolding_all decide)
    Demo.roomB (by with_unfolding_all decide)
    (by with_unfolding_all decide)

/-- C2: stage 4 fails whenever some pair of distinct detected rooms has no
wall pixel between their bounding extents along the shared axis (in
either orientation); conversely every pair of rooms in an accepted
`RoomSet` is separated by such a wall pixel; and when stage 4 reports
failure the orchestrator stops with stage 4 as the failure point, the
normalization outputs never being produced (stage 5 does not run). -/
theorem claim_C2_wall_separation (wall : Mask2D)
    (comps : List (Finset (Int × Int))) :
    (∀ r1 r2, r1 ∈ (detect wall comps).rooms →
      r2 ∈ (detect wall comps).rooms → r1 ≠ r2 →
      separatedByWall wall r1 r2 = false → stage4 wall comps = none) ∧
    (∀ rs, stage4 wall comps = some rs →
      ∀ r1 ∈ rs.rooms, ∀ r2 ∈ rs.rooms, r1 ≠ r2 →
        separatedByWall wall r1 r2 = true) ∧
    (∀ s : Orchestrator.Stages, ∀ mask g,
      s.stage2 = some mask → s.stage3 mask = some g →
      s.stage4 mask (some g) = none →
      Orchestrator.runFullPipeline s =
        ((false, "Stage 4 failed (Room Detection - FAIL FAST)"),
          { refined_wall_mask := some mask, wall_graph := some g }) ∧
      (Orchestrator.runFullPipeline s).2.normalized_wall_graph = none ∧
      (Orchestrator.runFullPipeline s).2.normalized_room_set = none) := by
  have key : ∀ rs, stage4 wall comps = some rs →
      ∀ r1 ∈ rs.rooms, ∀ r2 ∈ rs.rooms, r1 ≠ r2 →
        separatedByWall wall r1 r2 = true := by
    intro rs h r1 hr1 r2 hr2 hne
    obtain ⟨hrs, _, hsep⟩ := stage4_some_elim wall comps rs h
    have hpw := separationOk_pairwise wall _ hsep
    have hpw2 : List.Pairwise (fun a b => separatedByWall wall a b = true)
        (detect wall comps).rooms := by
      refine hpw.imp ?_
      intro a b hab
      rw [separatedByWall, hab, Bool.true_or]
    have hsym : Symmetric (fun a b : Room => separatedByWall wall a b = true) := by
      intro a b hab
      rw [separatedByWall, Bool.or_eq_true] at hab ⊢
      exact hab.symm
    exact hpw2.forall hsym (hrs ▸ hr1) (hrs ▸ hr2) hne
  refine ⟨?_, key, ?_⟩
  · intro r1 r2 hr1 hr2 hne hnosep
    cases h4 : stage4 wall comps with
    | none => rfl
    | some rs =>
      obtain ⟨hrs, _, _⟩ := stage4_some_elim wall comps rs h4
      have := key rs h4 r1 (hrs ▸ hr1) r2 (hrs ▸ hr2) hne
      rw [this] at hnosep
      exact Bool.noConfusion hnosep
  · intro s mask g h2 h3 h4
    have hrun : Orchestrator.runFullPipeline s =
        ((false, "Stage 4 failed (Room Detection - FAIL FAST)"),
          { refined_wall_mask := some mask, wall_graph := some g }) := by
      simp only [Orchestrator.runFullPipeline, h2, h3, h4]
    exact ⟨hrun, by rw [hrun], by rw [hrun]⟩

set_option maxRecDepth 100000 in
/-- Witness for C2: the two touching demo rooms have no separating wall
pixel, so stage 4 fails on them. -/
theorem claim_C2_wall_separation_witness :
    stage4 Demo.noWallMask Demo.touchingComponents = none :=
  (claim_C2_wall_separation Demo.noWallMask Demo.touchingComponents).1
    Demo.roomT1 Demo.roomT2
    (by with_unfolding_all decide) (by with_unfolding_all decide)
    (by with_unfolding_all decide) (by with_unfolding_all decide)

/-! ## Claim C5: stage 2 validation and the all-black mask -/

/-- Any read through the bounds guard of an everywhere-false in-range mask
is false. -/
theorem get_false_of_inrange_false (m : Mask2D)
    (h : ∀ y x, y < m.h → x < m.w → m.data y x = false) :
    ∀ yy xx : Int, m.get yy xx = false := by
  intro yy xx
  rw [Mask2D.get]
  split
  next hb =>
    obtain ⟨h1, h2, h3, h4⟩ := hb
    apply h
    · omega
    · omega
  · rfl

/-- Dilation of a mask with no set reads is everywhere false. -/
theorem dilate_false (k : List (Int × Int)) (m : Mask2D)
    (h : ∀ yy xx : Int, m.get yy xx = false) :
    ∀ y x, (Stage2.dilate k m).data y x = false := by
  intro y x
  simp [Stage2.dilate, h]

/-- Erosion of a mask with no set reads is false on every in-range pixel
(with any kernel containing its anchor). -/
theorem erode_false (k : List (Int × Int)) (m : Mask2D)
    (hk : ((0 : Int), (0 : Int)) ∈ k)
    (h : ∀ yy xx : Int, m.get yy xx = false) :
    ∀ y x, y < m.h → x < m.w → (Stage2.erode k m).data y x = false := by
  intro y x hy hx
  rw [Stage2.erode]
  simp only
  rw [List.all_eq_false]
  refine ⟨(0, 0), hk, ?_⟩
  simp only [add_zero]
  rw [if_pos]
  · simp [h]
  · refine ⟨by omega, by omega, by omega, by omega⟩

/-- The opening removal `_remove_openings_preserve_continuity` preserves an everywhere-false
wall mask, whatever the opening mask. -/
theorem removeOpenings_false (wall opening : Mask2D)
    (h : ∀ y x, wall.data y x = false) :
    ∀ y x, (Stage2.removeOpenings wall opening).data y x = false := by
  intro y x
  rw [Stage2.removeOpenings]
  simp only
  split
  · rfl
  · exact h y x

/-- The dimensions of every refinement step match the input mask. -/
theorem refine_dims (wall door window : Mask2D) :
    (Stage2.refine wall door window).h = wall.h ∧
    (Stage2.refine wall door window).w = wall.w := ⟨rfl, rfl⟩

/-- The full refinement pipeline maps an all-black wall mask to an
(in-range) all-black mask. -/
theorem refine_false (wall door window : Mask2D)
    (h : ∀ y x, wall.data y x = false) :
    ∀ y x, y < wall.h → x < wall.w →
      (Stage2.refine wall door window).data y x = false := by
  have h1 := removeOpenings_false wall door h
  have h2 := removeOpenings_false (Stage2.removeOpenings wall door) window h1
  have h2g : ∀ yy xx : Int,
      (Stage2.removeOpenings (Stage2.removeOpenings wall door) window).get
        yy xx = false :=
    get_false_of_inrange_false _ (fun y x _ _ => h2 y x)
  have h3 := dilate_false Stage2.kernelEllipse5 _ h2g
  have h3g : ∀ yy xx : Int,
      (Stage2.dilate Stage2.kernelEllipse5
        (Stage2.removeOpenings (Stage2.removeOpenings wall door) window)).get
          yy xx = false :=
    get_false_of_inrange_false _ (fun y x _ _ => h3 y x)
  have h4 := erode_false Stage2.kernelEllipse5 _ (by decide) h3g
  have h4g := get_false_of_inrange_false _ (fun y x hy hx => h4 y x hy hx)
  have h5 := erode_false Stage2.kernelEllipse3 _ (by decide) h4g
  have h5g := get_false_of_inrange_false _ (fun y x hy hx => h5 y x hy hx)
  have h6 := dilate_false Stage2.kernelEllipse3 _ h5g
  intro y x hy hx
  have hfinal : (Stage2.morphologicalCleanup
      (Stage2.removeOpenings (Stage2.removeOpenings wall door)
        window)).data y x = false := by
    rw [Stage2.morphologicalCleanup, Stage2.morphOpen, Stage2.morphClose]
    exact h6 y x
  rw [Stage2.refine, Stage2.removeSmallComponents]
  simp only [hfinal]
  simp

/-- A mask that is false on every in-range pixel has wall pixel count 0. -/
theorem count_eq_zero (m : Mask2D)
    (h : ∀ y x, y < m.h → x < m.w → m.data y x = false) :
    m.count = 0 := by
  rw [Mask2D.count]
  apply List.sum_eq_zero
  intro n hn
  obtain ⟨y, hy, hlen⟩ := List.mem_map.mp hn
  rw [← hlen]
  rw [List.length_eq_zero]
  rw [List.filter_eq_nil_iff]
  intro x hx
  rw [h y x (List.mem_range.mp hy) (List.mem_range.mp hx)]
  exact Bool.false_ne_true

/-- C5: stage 2 fails exactly when the refined mask's wall pixel count is
below the absolute floor of 100 pixels or above 95 % of the image area;
an all-black wall mask refines to a zero-pixel mask and fails with the
"too few wall pixels" message; and on a stage 2 failure the orchestrator
reports stage 2 and never produces a wall graph (Topology Extraction
does not run). -/
theorem claim_C5_refinement_gate (wall door window : Mask2D) :
    (Stage2.stage2 wall door window = none ↔
      ((Stage2.refine wall door window).count < 100 ∨
        19 * (Stage2.refine wall door window).size <
          20 * (Stage2.refine wall door window).count)) ∧
    ((∀ y x, wall.data y x = false) →
      (Stage2.refine wall door window).count = 0 ∧
      Stage2.validateRefined (Stage2.refine wall door window) =
        (false, "Too few wall pixels remaining after refinement") ∧
      Stage2.stage2 wall door window = none) ∧
    (∀ s : Orchestrator.Stages, s.stage2 = none →
      Orchestrator.runFullPipeline s =
        ((false, "Stage 2 failed (Wall Mask Refinement)"), {}) ∧
      (Orchestrator.runFullPipeline s).2.wall_graph = none) := by
  have hval : ∀ m : Mask2D, (Stage2.validateRefined m).1 = false ↔
      (m.count < 100 ∨ 19 * m.size < 20 * m.count) := by
    intro m
    rw [Stage2.validateRefined]
    split
    next hlt => simp [hlt]
    next hge =>
      split
      next hbig => simp [hbig, hge]
      next hsmall => simp [hge, hsmall]
  have hnone : Stage2.stage2 wall door window = none ↔
      (Stage2.validateRefined (Stage2.refine wall door window)).1 = false := by
    rw [Stage2.stage2]
    split
    next hc => simp [hc]
    next hc => simp at hc; simp [hc]
  refine ⟨(hnone.trans (hval _)), ?_, ?_⟩
  · intro hblack
    have hcount : (Stage2.refine wall door window).count = 0 :=
      count_eq_zero _ (fun y x hy hx => refine_false wall door window hblack y x hy hx)
    have hv : Stage2.validateRefined (Stage2.refine wall door window) =
        (false, "Too few wall pixels remaining after refinement") := by
      rw [Stage2.validateRefined, hcount]
      rfl
    refine ⟨hcount, hv, ?_⟩
    rw [hnone, hv]
  · intro s h2
    have hrun : Orchestrator.runFullPipeline s =
        ((false, "Stage 2 failed (Wall Mask Refinement)"), {}) := by
      simp only [Orchestrator.runFullPipeline, h2]
    exact ⟨hrun, by rw [hrun]⟩

/-- Witness for C5: the all-black demo mask (as wall, door and window
masks) is rejected with the "too few wall pixels" message. -/
theorem claim_C5_refinement_gate_witness :
    Stage2.stage2 Demo.noWallMask Demo.noWallMask Demo.noWallMask = none ∧
    Stage2.validateRefined
        (Stage2.refine Demo.noWallMask Demo.noWallMask Demo.noWallMask) =
      (false, "Too few wall pixels remaining after refinement") := by
  have h := (claim_C5_refinement_gate Demo.noWallMask Demo.noWallMask
    Demo.noWallMask).2.1 (fun _ _ => rfl)
  exact ⟨h.2.2, h.2.1⟩

/-! ## Claim C4: graph validation implies all-pairs BFS reachability

The plan: the worklist of `_is_connected` (i) only ever visits vertices
reachable from its start, (ii) with the fuel chosen in `bfsFuel` drains
its queue entirely, so its visited set is closed under adjacency and
absorbs every queue entry.  A passing `validate` therefore forces the
visited set from the first vertex to be exactly the vertex set; since
`add_edge` keeps the adjacency symmetric, reachability is symmetric, and
running the same worklist from any other vertex again reaches
everything. -/

/-- Draining an empty queue returns the visited set unchanged. -/
theorem bfsLoop_nil (adj : Nat → List Nat) (fuel : Nat) (visited : List Nat) :
    bfsLoop adj fuel visited [] = visited := by
  cases fuel <;> rfl

/-- Any property preserved along adjacency and true of the initial visited
set and queue holds of everything the worklist visits. -/
theorem bfsLoop_pred (adj : Nat → List Nat) (P : Nat → Prop)
    (hP : ∀ a b, P a → b ∈ adj a → P b) :
    ∀ (fuel : Nat) (visited queue : List Nat),
      (∀ v ∈ visited, P v) → (∀ v ∈ queue, P v) →
      ∀ v ∈ bfsLoop adj fuel visited queue, P v := by
  intro fuel
  induction fuel with
  | zero => intro visited queue hv _ v hmem; exact hv v hmem
  | succ f ih =>
    intro visited queue hv hq
    cases queue with
    | nil => exact hv
    | cons q qs =>
      rw [bfsLoop]
      split
      · exact ih visited qs hv (fun v hm => hq v (List.mem_cons_of_mem q hm))
      · refine ih (visited ++ [q]) _ ?_ ?_
        · intro v hm
          rcases List.mem_append.mp hm with h | h
          · exact hv v h
          · rw [List.mem_singleton.mp h]
            exact hq q (List.mem_cons_self q qs)
        · intro v hm
          rcases List.mem_append.mp hm with h | h
          · exact hq v (List.mem_cons_of_mem q h)
          · obtain ⟨hadj, _⟩ := List.mem_filter.mp h
            exact hP q v (hq q (List.mem_cons_self q qs)) hadj

/-- The worklist's visited list stays duplicate-free. -/
theorem bfsLoop_nodup (adj : Nat → List Nat) :
    ∀ (fuel : Nat) (visited queue : List Nat), visited.Nodup →
      (bfsLoop adj fuel visited queue).Nodup := by
  intro fuel
  induction fuel with
  | zero => intro visited queue h; exact h
  | succ f ih =>
    intro visited queue h
    cases queue with
    | nil => exact h
    | cons q qs =>
      rw [bfsLoop]
      split
      · exact ih visited qs h
      next hq =>
        refine ih _ _ ?_
        simp [List.nodup_append, h, hq]

/-- A neighbour list member pairs with its key inside the adjacency list. -/
theorem lookupAdj_mem (l : List (Nat × List Nat)) (k : Nat) (b : Nat)
    (h : b ∈ WallTopologyGraph.lookupAdj l k) :
    (k, WallTopologyGraph.lookupAdj l k) ∈ l := by
  induction l with
  | nil => cases h
  | cons p rest ih =>
    rcases p with ⟨k0, ns⟩
    by_cases hk : k0 = k
    · subst hk
      rw [WallTopologyGraph.lookupAdj, if_pos rfl]
      exact List.mem_cons_self _ _
    · rw [WallTopologyGraph.lookupAdj, if_neg hk] at h ⊢
      exact List.mem_cons_of_mem _ (ih h)

/-- An absent key has the empty neighbour list. -/
theorem lookupAdj_not_mem (l : List (Nat × List Nat)) (k : Nat)
    (h : k ∉ l.map Prod.fst) : WallTopologyGraph.lookupAdj l k = [] := by
  induction l with
  | nil => rfl
  | cons p rest ih =>
    rcases p with ⟨k0, ns⟩
    rw [List.map_cons, List.mem_cons] at h
    push_neg at h
    rw [WallTopologyGraph.lookupAdj, if_neg (fun hc => h.1 hc.symm)]
    exact ih h.2

/-- One worklist iteration on an unvisited vertex strictly decreases the
potential. -/
theorem bfsPotential_step (adjList : List (Nat × List Nat))
    (visited qs : List Nat) (v : Nat) (hv : v ∉ visited) :
    WallTopologyGraph.bfsPotential adjList (visited ++ [v])
      (qs ++ (WallTopologyGraph.lookupAdj adjList v).filter
        (fun w => decide (w ∉ visited ++ [v]))) + 1 ≤
    WallTopologyGraph.bfsPotential adjList visited (v :: qs) := by
  rw [WallTopologyGraph.bfsPotential, WallTopologyGraph.bfsPotential]
  have hfilterset :
      (adjList.map Prod.fst).toFinset.filter (fun k => k ∉ visited ++ [v]) =
      ((adjList.map Prod.fst).toFinset.filter
        (fun k => k ∉ visited)).erase v := by
    ext k
    simp only [Finset.mem_filter, Finset.mem_erase, List.mem_append,
      List.mem_singleton]
    constructor
    · rintro ⟨hk, hnot⟩
      push_neg at hnot
      exact ⟨hnot.2, hk, hnot.1⟩
    · rintro ⟨hne, hk, hnot⟩
      refine ⟨hk, ?_⟩
      push_neg
      exact ⟨hnot, hne⟩
  rw [hfilterset]
  by_cases hvk : v ∈ adjList.map Prod.fst
  · have hvS : v ∈ (adjList.map Prod.fst).toFinset.filter
        (fun k => k ∉ visited) :=
      Finset.mem_filter.mpr ⟨List.mem_toFinset.mpr hvk, hv⟩
    have hsum : (1 + (WallTopologyGraph.lookupAdj adjList v).length) +
        ∑ k ∈ ((adjList.map Prod.fst).toFinset.filter
          (fun k => k ∉ visited)).erase v,
          (1 + (WallTopologyGraph.lookupAdj adjList k).length) =
        ∑ k ∈ (adjList.map Prod.fst).toFinset.filter (fun k => k ∉ visited),
          (1 + (WallTopologyGraph.lookupAdj adjList k).length) :=
      Finset.add_sum_erase _
        (fun k => 1 + (WallTopologyGraph.lookupAdj adjList k).length) hvS
    have hfl : ((WallTopologyGraph.lookupAdj adjList v).filter
        (fun w => decide (w ∉ visited ++ [v]))).length ≤
        (WallTopologyGraph.lookupAdj adjList v).length :=
      List.length_filter_le _ _
    rw [List.length_append, List.length_cons]
    omega
  · have hempty := lookupAdj_not_mem adjList v hvk
    have herase : (((adjList.map Prod.fst).toFinset.filter
        (fun k => k ∉ visited)).erase v) =
        (adjList.map Prod.fst).toFinset.filter (fun k => k ∉ visited) := by
      apply Finset.erase_eq_of_not_mem
      intro hc
      exact hvk (List.mem_toFinset.mp (Finset.mem_filter.mp hc).1)
    rw [herase, hempty]
    simp only [List.filter_nil, List.append_nil, List.length_cons]
    omega

/-- With fuel at least the potential, the worklist absorbs its whole queue
and its result is closed under adjacency. -/
theorem bfsLoop_post (adjList : List (Nat × List Nat)) :
    ∀ (fuel : Nat) (visited queue : List Nat),
      WallTopologyGraph.bfsPotential adjList visited queue ≤ fuel →
      (∀ v ∈ visited, ∀ w ∈ WallTopologyGraph.lookupAdj adjList v,
        w ∈ visited ∨ w ∈ queue) →
      visited ⊆
        bfsLoop (WallTopologyGraph.lookupAdj adjList) fuel visited queue ∧
      (∀ q ∈ queue,
        q ∈ bfsLoop (WallTopologyGraph.lookupAdj adjList) fuel visited queue) ∧
      (∀ v ∈ bfsLoop (WallTopologyGraph.lookupAdj adjList) fuel visited queue,
        ∀ w ∈ WallTopologyGraph.lookupAdj adjList v,
          w ∈ bfsLoop (WallTopologyGraph.lookupAdj adjList) fuel visited
            queue) := by
  intro fuel
  induction fuel with
  | zero =>
    intro visited queue hfuel hinv
    have hq : queue = [] := by
      rw [WallTopologyGraph.bfsPotential] at hfuel
      exact List.eq_nil_of_length_eq_zero (by omega)
    subst hq
    rw [bfsLoop]
    refine ⟨fun x hx => hx, fun q hq => absurd hq (List.not_mem_nil q), ?_⟩
    intro v hv w hw
    rcases hinv v hv w hw with h | h
    · exact h
    · exact absurd h (List.not_mem_nil w)
  | succ f ih =>
    intro visited queue hfuel hinv
    cases queue with
    | nil =>
      rw [bfsLoop]
      refine ⟨fun x hx => hx, fun q hq => absurd hq (List.not_mem_nil q), ?_⟩
      intro v hv w hw
      rcases hinv v hv w hw with h | h
      · exact h
      · exact absurd h (List.not_mem_nil w)
    | cons v qs =>
      rw [bfsLoop]
      split
      next hmem =>
        have hfuel' :
            WallTopologyGraph.bfsPotential adjList visited qs ≤ f := by
          rw [WallTopologyGraph.bfsPotential] at hfuel ⊢
          rw [List.length_cons] at hfuel
          omega
        have hinv' : ∀ u ∈ visited,
            ∀ w ∈ WallTopologyGraph.lookupAdj adjList u,
              w ∈ visited ∨ w ∈ qs := by
          intro u hu w hw
          rcases hinv u hu w hw with h | h
          · exact Or.inl h
          · rcases List.mem_cons.mp h with h2 | h2
            · exact Or.inl (h2 ▸ hmem)
            · exact Or.inr h2
        obtain ⟨S1, S2, S3⟩ := ih visited qs hfuel' hinv'
        refine ⟨S1, ?_, S3⟩
        intro q hq
        rcases List.mem_cons.mp hq with h | h
        · exact S1 (h ▸ hmem)
        · exact S2 q h
      next hmem =>
        have hstep := bfsPotential_step adjList visited qs v hmem
        have hfuel' : WallTopologyGraph.bfsPotential adjList (visited ++ [v])
            (qs ++ (WallTopologyGraph.lookupAdj adjList v).filter
              (fun w => decide (w ∉ visited ++ [v]))) ≤ f := by omega
        have hinv' : ∀ u ∈ visited ++ [v],
            ∀ w ∈ WallTopologyGraph.lookupAdj adjList u,
              w ∈ visited ++ [v] ∨
              w ∈ qs ++ (WallTopologyGraph.lookupAdj adjList v).filter
                (fun w => decide (w ∉ visited ++ [v])) := by
          intro u hu w hw
          rcases List.mem_append.mp hu with h | h
          · rcases hinv u h w hw with h2 | h2
            · exact Or.inl (List.mem_append_left _ h2)
            · rcases List.mem_cons.mp h2 with h3 | h3
              · exact Or.inl (List.mem_append_right _
                  (h3 ▸ List.mem_singleton_self v))
              · exact Or.inr (List.mem_append_left _ h3)
          · rw [List.mem_singleton.mp h] at hw
            by_cases hwv : w ∈ visited ++ [v]
            · exact Or.inl hwv
            · refine Or.inr (List.mem_append_right _ ?_)
              exact List.mem_filter.mpr ⟨hw, by simpa using hwv⟩
        obtain ⟨S1, S2, S3⟩ := ih _ _ hfuel' hinv'
        refine ⟨?_, ?_, S3⟩
        · intro x hx
          exact S1 (List.mem_append_left _ hx)
        · intro q hq
          rcases List.mem_cons.mp hq with h | h
          · exact S1 (List.mem_append_right _ (h ▸ List.mem_singleton_self v))
          · exact S2 q (List.mem_append_left _ h)

/-- The finite-set part of the potential is bounded by the fuel's list
sum, whatever duplicate keys the adjacency list may carry. -/
theorem sum_lookup_le (adjList : List (Nat × List Nat)) (S : Finset Nat)
    (hS : ∀ k ∈ S, k ∈ adjList.map Prod.fst) :
    (∑ k ∈ S, (1 + (WallTopologyGraph.lookupAdj adjList k).length)) ≤
      (adjList.map (fun p => 1 + p.2.length)).sum := by
  induction adjList generalizing S with
  | nil =>
    have hSe : S = ∅ :=
      Finset.eq_empty_of_forall_not_mem (fun k hk => by simpa using hS k hk)
    rw [hSe]
    simp
  | cons p rest ih =>
    rcases p with ⟨k0, ns⟩
    simp only [List.map_cons, List.sum_cons]
    have hsub : ∀ k ∈ S.erase k0, k ∈ rest.map Prod.fst := by
      intro k hk
      obtain ⟨hne, hkS⟩ := Finset.mem_erase.mp hk
      have := hS k hkS
      rw [List.map_cons, List.mem_cons] at this
      rcases this with h | h
      · exact absurd h hne
      · exact h
    have hcong : (∑ k ∈ S.erase k0,
        (1 + (WallTopologyGraph.lookupAdj ((k0, ns) :: rest) k).length)) =
        ∑ k ∈ S.erase k0,
          (1 + (WallTopologyGraph.lookupAdj rest k).length) := by
      refine Finset.sum_congr rfl ?_
      intro k hk
      rw [WallTopologyGraph.lookupAdj,
        if_neg (fun hc => (Finset.mem_erase.mp hk).1 hc.symm)]
    by_cases hk0 : k0 ∈ S
    · have hsum : (1 + (WallTopologyGraph.lookupAdj ((k0, ns) :: rest)
          k0).length) + ∑ k ∈ S.erase k0,
            (1 + (WallTopologyGraph.lookupAdj ((k0, ns) :: rest) k).length) =
          ∑ k ∈ S, (1 + (WallTopologyGraph.lookupAdj ((k0, ns) :: rest)
            k).length) :=
        Finset.add_sum_erase _
          (fun k => 1 + (WallTopologyGraph.lookupAdj ((k0, ns) :: rest)
            k).length) hk0
      have hf : WallTopologyGraph.lookupAdj ((k0, ns) :: rest) k0 = ns := by
        rw [WallTopologyGraph.lookupAdj, if_pos rfl]
      rw [hf] at hsum
      rw [hcong] at hsum
      have hrest := ih (S.erase k0) hsub
      omega
    · have hS' : ∀ k ∈ S, k ∈ rest.map Prod.fst := by
        intro k hk
        have := hS k hk
        rw [List.map_cons, List.mem_cons] at this
        rcases this with h | h
        · rw [h] at hk
          exact absurd hk hk0
        · exact h
      have hcong2 : (∑ k ∈ S,
          (1 + (WallTopologyGraph.lookupAdj ((k0, ns) :: rest) k).length)) =
          ∑ k ∈ S, (1 + (WallTopologyGraph.lookupAdj rest k).length) := by
        refine Finset.sum_congr rfl ?_
        intro k hk
        rw [WallTopologyGraph.lookupAdj,
          if_neg (fun hc => hk0 (by rw [hc]; exact hk))]
      rw [hcong2]
      have hrest := ih S hS'
      omega

/-- The fuel `_is_connected` is run with covers the initial potential of a
one-element queue. -/
theorem bfsFuel_sufficient (g : WallTopologyGraph) (start : Nat) :
    WallTopologyGraph.bfsPotential g.adjacency [] [start] ≤ g.bfsFuel := by
  rw [WallTopologyGraph.bfsPotential, WallTopologyGraph.bfsFuel]
  have hfilter : ((g.adjacency.map Prod.fst).toFinset.filter
      (fun k => k ∉ ([] : List Nat))) =
      (g.adjacency.map Prod.fst).toFinset := by
    apply Finset.filter_true_of_mem
    intro k _
    exact List.not_mem_nil k
  rw [hfilter]
  have hb := sum_lookup_le g.adjacency (g.adjacency.map Prod.fst).toFinset
    (fun k hk => List.mem_toFinset.mp hk)
  simp only [List.length_singleton]
  omega

/-- C4: a graph accepted by `WallTopologyGraph.validate` — with the
well-formedness its builders `add_vertex` / `add_edge` maintain: distinct
vertex ids, symmetric adjacency, neighbours drawn from the vertex set —
has at least 2 vertices and 1 edge, and the breadth-first traversal of
`_is_connected` started from ANY vertex visits every vertex. -/
theorem claim_C4_validate_connectivity (g : WallTopologyGraph)
    (hnd : g.ids.Nodup)
    (hsym : ∀ p ∈ g.adjacency, ∀ b ∈ p.2, p.1 ∈ g.adjOf b)
    (hcl : ∀ p ∈ g.adjacency, ∀ b ∈ p.2, b ∈ g.ids)
    (hval : g.validate.1 = true) :
    2 ≤ g.vertices.length ∧ 1 ≤ g.edges.length ∧
    ∀ u ∈ g.ids, ∀ v ∈ g.ids, v ∈ g.bfsFrom u := by
  have hsym' : ∀ a b, b ∈ g.adjOf a → a ∈ g.adjOf b := by
    intro a b hb
    exact hsym _ (lookupAdj_mem g.adjacency a b hb) b hb
  have hcl' : ∀ a b, b ∈ g.adjOf a → b ∈ g.ids := by
    intro a b hb
    exact hcl _ (lookupAdj_mem g.adjacency a b hb) b hb
  have h1 : ¬g.vertices.length < 2 := by
    intro hc
    rw [WallTopologyGraph.validate, if_pos hc] at hval
    simp at hval
  have h2 : ¬g.edges.length < 1 := by
    intro hc
    rw [WallTopologyGraph.validate, if_neg h1, if_pos hc] at hval
    simp at hval
  have hconn : g.isConnected = true := by
    by_contra hc
    rw [Bool.not_eq_true] at hc
    rw [WallTopologyGraph.validate, if_neg h1, if_neg h2,
      if_pos (show (!g.isConnected) = true by rw [hc]; rfl)] at hval
    simp at hval
  refine ⟨by omega, by omega, ?_⟩
  rw [WallTopologyGraph.isConnected] at hconn
  cases hids : g.ids with
  | nil => rw [hids] at hconn; cases hconn
  | cons v0 rest =>
    rw [hids] at hconn
    have hlenF : (g.bfsFrom v0).length = g.vertices.length := by
      simpa using hconn
    obtain ⟨_, P2, P3⟩ := bfsLoop_post g.adjacency g.bfsFuel [] [v0]
      (bfsFuel_sufficient g v0) (by intro x hx; cases hx)
    have hstart : v0 ∈ g.bfsFrom v0 := P2 v0 (List.mem_singleton_self v0)
    have hsound : ∀ v ∈ g.bfsFrom v0,
        Relation.ReflTransGen (fun a b => b ∈ g.adjOf a) v0 v := by
      refine bfsLoop_pred g.adjOf _ ?_ g.bfsFuel [] [v0] ?_ ?_
      · intro a b ha hb
        exact Relation.ReflTransGen.tail ha hb
      · intro x hx; cases hx
      · intro x hx
        rw [List.mem_singleton.mp hx]
    have hsub : ∀ v ∈ g.bfsFrom v0, v ∈ g.ids := by
      refine bfsLoop_pred g.adjOf _ ?_ g.bfsFuel [] [v0] ?_ ?_
      · intro a b _ hb
        exact hcl' a b hb
      · intro x hx; cases hx
      · intro x hx
        rw [List.mem_singleton.mp hx, hids]
        exact List.mem_cons_self v0 rest
    have hnodupF : (g.bfsFrom v0).Nodup :=
      bfsLoop_nodup g.adjOf g.bfsFuel [] [v0] List.nodup_nil
    have hidslen : g.ids.length = g.vertices.length := List.length_map _ _
    have hallF : ∀ v ∈ g.ids, v ∈ g.bfsFrom v0 := by
      have hss : (g.bfsFrom v0).toFinset ⊆ g.ids.toFinset := by
        intro x hx
        exact List.mem_toFinset.mpr (hsub x (List.mem_toFinset.mp hx))
      have hcard1 : (g.bfsFrom v0).toFinset.card = (g.bfsFrom v0).length :=
        List.toFinset_card_of_nodup hnodupF
      have hcard2 : g.ids.toFinset.card = g.ids.length :=
        List.toFinset_card_of_nodup hnd
      have heq : (g.bfsFrom v0).toFinset = g.ids.toFinset :=
        Finset.eq_of_subset_of_card_le hss (by omega)
      intro v hv
      have hv2 : v ∈ g.ids.toFinset := List.mem_toFinset.mpr hv
      rw [← heq] at hv2
      exact List.mem_toFinset.mp hv2
    have hreach0 : ∀ v ∈ g.ids,
        Relation.ReflTransGen (fun a b => b ∈ g.adjOf a) v0 v :=
      fun v hv => hsound v (hallF v hv)
    have hReachSymm :=
      Relation.ReflTransGen.symmetric (fun a b hb => hsym' a b hb)
    intro u hu v hv
    have hu2 : u ∈ g.ids := by rw [hids]; exact hu
    have hv2 : v ∈ g.ids := by rw [hids]; exact hv
    obtain ⟨_, Q2, Q3⟩ := bfsLoop_post g.adjacency g.bfsFuel [] [u]
      (bfsFuel_sufficient g u) (by intro x hx; cases hx)
    have hstartu : u ∈ g.bfsFrom u := Q2 u (List.mem_singleton_self u)
    have hr : Relation.ReflTransGen (fun a b => b ∈ g.adjOf a) u v :=
      Relation.ReflTransGen.trans (hReachSymm (hreach0 u hu2)) (hreach0 v hv2)
    clear hv hv2
    induction hr with
    | refl => exact hstartu
    | tail hs hstep ih => exact Q3 _ ih _ hstep

/-- Witness for C4: the two-vertex demo graph passes validation and its
second vertex's BFS reaches the first. -/
theorem claim_C4_validate_connectivity_witness :
    2 ≤ Demo.lineGraph.vertices.length ∧ 1 ≤ Demo.lineGraph.edges.length ∧
    (0 : Nat) ∈ Demo.lineGraph.bfsFrom 1 := by
  have h := claim_C4_validate_connectivity Demo.lineGraph
    (by with_unfolding_all decide) (by with_unfolding_all decide)
    (by with_unfolding_all decide) (by with_unfolding_all decide)
  exact ⟨h.1, h.2.1,
    h.2.2 1 (by with_unfolding_all decide) 0 (by with_unfolding_all decide)⟩

end Skematix
